import Mathlib

/-!
# Coin segmentation: contour detection and marker-based watershed

A shallow embedding of `src/main.cpp`.  The program is a sequence of OpenCV calls.
The calls whose effect is a per-pixel formula (`threshold`, `erode`, `dilate`,
`morphologyEx`, `subtract`, `convertTo`, `+=`, `==`, `setTo`, `minMaxLoc`) are written
out below following the OpenCV reference documentation.  The remaining calls
(`medianBlur`, `cvtColor`, `distanceTransform`, `connectedComponents`, `watershed`,
`findContours`, `drawContours`, `normalize`, `resize`, `hconcat`) are fields of the record
`OpenCV`; the two documented facts about them that the proofs use are stated as the
predicates `DistanceTransformDoc` and `ConnectedComponentsDoc`.

Samples of 8-bit images are natural numbers, 32-bit labels are integers, and 32-bit
floating-point samples are rationals.  The floating-point arithmetic that the program itself
performs (the product `0.4 * maxVal` in double precision and the conversion of the threshold
to single precision inside `cv::threshold`) is rounded to nearest, ties to even, by `roundTo`.
Display calls are recorded as a list of events.
-/

namespace Watershed

/-! ## Matrices -/

/-- A single-channel-per-entry `cv::Mat`: dimensions and row-major data. -/
structure Mat (α : Type) where
  rows : Nat
  cols : Nat
  data : List α
deriving DecidableEq, Repr

namespace Mat

variable {α : Type}

/-- The sample at row `r`, column `c` (zero outside the matrix). -/
def px [Zero α] (m : Mat α) (r c : Nat) : α :=
  if r < m.rows ∧ c < m.cols then m.data.getD (r * m.cols + c) 0 else 0

/-- The matrix of the given size whose sample at `(r, c)` is `f r c`. -/
def tabulate (rows cols : Nat) (f : Nat → Nat → α) : Mat α :=
  ⟨rows, cols, (List.range (rows * cols)).map (fun i => f (i / cols) (i % cols))⟩

/-- The method `cv::Mat::empty`. -/
def empty (m : Mat α) : Bool := m.rows == 0 || m.cols == 0

/-- The method `cv::Mat::clone`: a deep copy, which for values is the matrix itself. -/
def clone (m : Mat α) : Mat α := m

/-- The pixel positions in scan order (row by row). -/
def positions (m : Mat α) : List (Nat × Nat) :=
  (List.range (m.rows * m.cols)).map (fun i => (i / m.cols, i % m.cols))

end Mat

/-- A BGR pixel of an 8-bit 3-channel image. -/
abbrev Vec3b := Nat × Nat × Nat

/-- The type `cv::Scalar`. -/
abbrev Scalar := Nat × Nat × Nat × Nat

/-- The constructor `Scalar(b, g, r)`; the fourth component is zero. -/
def Scalar.bgr (b g r : Nat) : Scalar := (b, g, r, 0)

/-- The type `cv::Vec4i`, as used for one entry of a contour hierarchy. -/
abbrev Vec4i := Int × Int × Int × Int

/-- The component `v[k]` of a `Vec4i`. -/
def Vec4i.idx (v : Vec4i) (k : Nat) : Int :=
  match k with
  | 0 => v.1
  | 1 => v.2.1
  | 2 => v.2.2.1
  | _ => v.2.2.2

/-- The type `cv::Point`. -/
abbrev Point := Int × Int

/-- A contour: `vector<Point>`. -/
abbrev Contour := List Point

/-- A `cv::Mat` of any of the element types the program uses. -/
inductive AnyMat where
  | u8c3 (m : Mat Vec3b)
  | u8c1 (m : Mat Nat)
  | s32c1 (m : Mat Int)
  | f32c1 (m : Mat ℚ)
deriving DecidableEq

/-! ## OpenCV calls with a per-pixel formula -/

/-- The constant `cv::THRESH_BINARY`. -/
def THRESH_BINARY : Nat := 0

/-- The call `cv::threshold(src, dst, thresh, maxval, type)` for the five basic types:
`THRESH_BINARY` (0) is `src > thresh ? maxval : 0`, `THRESH_BINARY_INV` (1) is
`src > thresh ? 0 : maxval`, `THRESH_TRUNC` (2) is `src > thresh ? thresh : src`,
`THRESH_TOZERO` (3) is `src > thresh ? src : 0`, `THRESH_TOZERO_INV` (4) is
`src > thresh ? 0 : src`. -/
def threshold {α : Type} [Zero α] [LT α] [DecidableRel (fun a b : α => a < b)]
    (src : Mat α) (thresh maxval : α) (type : Nat) : Mat α :=
  Mat.tabulate src.rows src.cols (fun r c =>
    let v := src.px r c
    match type with
    | 0 => if thresh < v then maxval else 0
    | 1 => if thresh < v then 0 else maxval
    | 2 => if thresh < v then thresh else v
    | 3 => if thresh < v then v else 0
    | _ => if thresh < v then 0 else v)

/-- The conversion `cv::saturate_cast<uchar>` of an integer. -/
def saturate_cast_uchar (x : Int) : Nat :=
  if x < 0 then 0 else if 255 < x then 255 else x.toNat

/-- The rounding `cvRound`: to the nearest integer, ties to the even one. -/
def cvRound (x : ℚ) : Int :=
  let f := Rat.floor x
  let d := x - f
  if d < 1 / 2 then f else if 1 / 2 < d then f + 1 else if f % 2 = 0 then f else f + 1

/-- Rounding of a real number to the nearest binary floating-point number with `p` significant
bits and least normal exponent `emin`, ties to even: the quotient by the unit in the last
place is rounded to an integer.  Numbers beyond the largest finite one are not treated; the
program rounds only 0.4, a fraction of a float sample, and 255. -/
def roundTo (p : Nat) (emin : Int) (x : ℚ) : ℚ :=
  if x = 0 then 0
  else (cvRound (x / 2 ^ (max (Int.log 2 |x|) emin - ((p : Int) - 1))) : ℚ) *
    2 ^ (max (Int.log 2 |x|) emin - ((p : Int) - 1))

/-- Rounding to `double` (53 significant bits, least normal exponent -1022). -/
def fl64 (x : ℚ) : ℚ := roundTo 53 (-1022) x

/-- Rounding to `float` (24 significant bits, least normal exponent -126). -/
def fl32 (x : ℚ) : ℚ := roundTo 24 (-126) x

/-- The call `cv::threshold(src, dst, thresh, maxval, type)` on a `CV_32F` matrix: the
`double` arguments `thresh` and `maxval` are converted to `float` and the float samples are
compared with the converted threshold. -/
def threshold_32F (src : Mat ℚ) (thresh maxval : ℚ) (type : Nat) : Mat ℚ :=
  threshold src (fl32 thresh) (fl32 maxval) type

/-- The call `m.convertTo(m, CV_8U)` on a floating-point matrix. -/
def convertTo_8U (src : Mat ℚ) : Mat Nat :=
  Mat.tabulate src.rows src.cols (fun r c => saturate_cast_uchar (cvRound (src.px r c)))

/-- The call `m.convertTo(m, CV_8U)` on a matrix of 32-bit integers. -/
def convertTo_8U_32S (src : Mat Int) : Mat Nat :=
  Mat.tabulate src.rows src.cols (fun r c => saturate_cast_uchar (src.px r c))

/-- The constant `cv::MORPH_RECT`. -/
def MORPH_RECT : Nat := 0

/-- The call `getStructuringElement(MORPH_RECT, Size(width, height))`: all ones. -/
def getStructuringElement (shape : Nat) (width height : Nat) : Mat Nat :=
  if shape = MORPH_RECT then Mat.tabulate height width (fun _ _ => 1)
  else Mat.tabulate height width (fun _ _ => 0)

/-- The anchor actually used: a coordinate `-1` stands for the kernel centre. -/
def normalizeAnchor (anchor : Point) (kernel : Mat Nat) : Nat × Nat :=
  (if anchor.1 = -1 then kernel.cols / 2 else anchor.1.toNat,
   if anchor.2 = -1 then kernel.rows / 2 else anchor.2.toNat)

/-- The image positions under the non-zero kernel entries when the kernel anchor is put on
`(r, c)`.  Positions outside the image are left out: with the default border value of the
morphological calls they do not affect a minimum (erosion) or a maximum (dilation). -/
def kernelWindow (kernel : Mat Nat) (anchor : Point) (rows cols r c : Nat) : List (Nat × Nat) :=
  let a := normalizeAnchor anchor kernel
  (List.range kernel.rows).flatMap (fun i =>
    (List.range kernel.cols).filterMap (fun j =>
      if kernel.px i j ≠ 0 ∧ a.2 ≤ r + i ∧ r + i - a.2 < rows ∧ a.1 ≤ c + j ∧ c + j - a.1 < cols
      then some (r + i - a.2, c + j - a.1) else none))

/-- One pass of `cv::erode` on an 8-bit image: the minimum over the kernel window. -/
def erode1 (src : Mat Nat) (kernel : Mat Nat) (anchor : Point) : Mat Nat :=
  Mat.tabulate src.rows src.cols (fun r c =>
    (kernelWindow kernel anchor src.rows src.cols r c).foldl
      (fun acc q => min acc (src.px q.1 q.2)) 255)

/-- One pass of `cv::dilate` on an 8-bit image: the maximum over the kernel window. -/
def dilate1 (src : Mat Nat) (kernel : Mat Nat) (anchor : Point) : Mat Nat :=
  Mat.tabulate src.rows src.cols (fun r c =>
    (kernelWindow kernel anchor src.rows src.cols r c).foldl
      (fun acc q => max acc (src.px q.1 q.2)) 0)

/-- The call `cv::erode(src, dst, kernel, anchor, iterations)`. -/
def erode (src : Mat Nat) (kernel : Mat Nat) (anchor : Point) : Nat → Mat Nat
  | 0 => src
  | n + 1 => erode (erode1 src kernel anchor) kernel anchor n

/-- The call `cv::dilate(src, dst, kernel, anchor, iterations)`. -/
def dilate (src : Mat Nat) (kernel : Mat Nat) (anchor : Point) : Nat → Mat Nat
  | 0 => src
  | n + 1 => dilate (dilate1 src kernel anchor) kernel anchor n

/-- The constant `cv::MORPH_OPEN`. -/
def MORPH_OPEN : Nat := 2

/-- The call `cv::morphologyEx(src, dst, op, kernel, anchor, iterations)` for the operations
`MORPH_ERODE` (0), `MORPH_DILATE` (1) and `MORPH_OPEN` (2); an opening erodes `iterations`
times and then dilates `iterations` times. -/
def morphologyEx (src : Mat Nat) (op : Nat) (kernel : Mat Nat) (anchor : Point)
    (iterations : Nat) : Mat Nat :=
  match op with
  | 0 => erode src kernel anchor iterations
  | 1 => dilate src kernel anchor iterations
  | _ => dilate (erode src kernel anchor iterations) kernel anchor iterations

/-- The call `cv::subtract(a, b, dst)` on 8-bit images: the saturated difference. -/
def subtract (a b : Mat Nat) : Mat Nat :=
  Mat.tabulate a.rows a.cols (fun r c =>
    saturate_cast_uchar ((a.px r c : Int) - (b.px r c : Int)))

/-- The statement `m += s` on a matrix of 32-bit integers. -/
def addScalar (m : Mat Int) (s : Int) : Mat Int :=
  Mat.tabulate m.rows m.cols (fun r c => m.px r c + s)

/-- The expression `m == s` on an 8-bit image: 255 where equal, 0 elsewhere. -/
def compareEq (m : Mat Nat) (s : Nat) : Mat Nat :=
  Mat.tabulate m.rows m.cols (fun r c => if m.px r c = s then 255 else 0)

/-- The call `m.setTo(value, mask)`: `value` wherever `mask` is non-zero. -/
def setTo (m : Mat Int) (value : Int) (mask : Mat Nat) : Mat Int :=
  Mat.tabulate m.rows m.cols (fun r c => if mask.px r c ≠ 0 then value else m.px r c)

/-- The results of `cv::minMaxLoc`. -/
structure MinMax where
  minVal : ℚ
  maxVal : ℚ
  minLoc : Nat × Nat
  maxLoc : Nat × Nat

/-- One step of the scan of `cv::minMaxLoc`: a sample strictly below the least so far, or
strictly above the greatest so far, replaces it together with its position. -/
def minMaxStep (src : Mat ℚ) (acc : MinMax) (p : Nat × Nat) : MinMax :=
  let v := src.px p.1 p.2
  { minVal := if v < acc.minVal then v else acc.minVal
    maxVal := if acc.maxVal < v then v else acc.maxVal
    minLoc := if v < acc.minVal then p else acc.minLoc
    maxLoc := if acc.maxVal < v then p else acc.maxLoc }

/-- The call `cv::minMaxLoc(src, &minVal, &maxVal, &minLoc, &maxLoc)`: a scan in row order
that keeps the first position of the least and of the greatest sample.  Locations are
`(row, column)`. -/
def minMaxLoc (src : Mat ℚ) : MinMax :=
  src.positions.foldl (minMaxStep src)
    { minVal := src.px 0 0, maxVal := src.px 0 0, minLoc := (0, 0), maxLoc := (0, 0) }

/-! ## The remaining OpenCV calls -/

/-- The OpenCV calls of the program that are not written out above. -/
structure OpenCV where
  imread : String → Mat Vec3b
  resize : AnyMat → Nat → Nat → AnyMat
  medianBlur : Mat Vec3b → Nat → Mat Vec3b
  cvtColor_BGR2GRAY : Mat Vec3b → Mat Nat
  distanceTransform : Mat Nat → Nat → Nat → Mat ℚ
  normalize_MINMAX_32F : Mat ℚ → ℚ → ℚ → Mat ℚ
  normalize_MINMAX_32S : Mat Int → ℚ → ℚ → Mat Int
  connectedComponents : Mat Nat → Mat Int
  watershed : Mat Vec3b → Mat Int → Mat Int
  findContours : AnyMat → Nat → Nat → List Contour × List Vec4i
  drawContours : Mat Vec3b → List Contour → Int → Scalar → Int → Mat Vec3b
  hconcat : List (Mat Vec3b) → Mat Vec3b

/-- What the documentation of `cv::distanceTransform` states: the result has the size of the
source and holds, at each pixel, the distance to the closest zero pixel of the source. It is
therefore zero at the zero pixels and positive at the others. -/
def DistanceTransformDoc (cv : OpenCV) : Prop :=
  ∀ (src : Mat Nat) (distanceType maskSize : Nat),
    (cv.distanceTransform src distanceType maskSize).rows = src.rows ∧
    (cv.distanceTransform src distanceType maskSize).cols = src.cols ∧
    ∀ r c, r < src.rows → c < src.cols →
      (src.px r c = 0 → (cv.distanceTransform src distanceType maskSize).px r c = 0) ∧
      (src.px r c ≠ 0 → 0 < (cv.distanceTransform src distanceType maskSize).px r c)

/-- What the documentation of `cv::connectedComponents` states: the result has the size of
the source; label 0 is the background (the zero pixels) and the components of non-zero
pixels carry the labels 1, 2, ... -/
def ConnectedComponentsDoc (cv : OpenCV) : Prop :=
  ∀ src : Mat Nat,
    (cv.connectedComponents src).rows = src.rows ∧
    (cv.connectedComponents src).cols = src.cols ∧
    ∀ r c, r < src.rows → c < src.cols →
      (src.px r c = 0 → (cv.connectedComponents src).px r c = 0) ∧
      (src.px r c ≠ 0 → 1 ≤ (cv.connectedComponents src).px r c)

/-! ## The program -/

/-- The constant `cv::DIST_L2`. -/
def DIST_L2 : Nat := 2

/-- The constant `cv::RETR_CCOMP`. -/
def RETR_CCOMP : Nat := 2

/-- The constant `cv::CHAIN_APPROX_SIMPLE`. -/
def CHAIN_APPROX_SIMPLE : Nat := 2

/-- What the program does to the outside world, in order. -/
inductive Event where
  | cout (text : String)
  | imshow (windowName : String) (image : AnyMat)
  | waitKey (delay : Int)
  | destroyAllWindows

/-- Whether the event displays an image. -/
def Event.isImshow : Event → Bool
  | Event.imshow _ _ => true
  | _ => false

/-- The function `showImage(windowName, image, width, height)`; the calls of the program
that give no size use the defaults 800 and 500. -/
def showImage (cv : OpenCV) (windowName : String) (image : AnyMat) (width height : Nat) :
    List Event :=
  let resized := cv.resize image width height
  [Event.imshow windowName resized, Event.waitKey 0]

/-- The drawing loop of both pipelines: for `i` from 0 up to `contours.size()`, contour `i` is
drawn on `result` when `hierarchy[i][3] == -1`. -/
def drawLoop (cv : OpenCV) (result : Mat Vec3b) (contours : List Contour)
    (hierarchy : List Vec4i) (color : Scalar) (thickness : Int) : Mat Vec3b :=
  (List.range contours.length).foldl
    (fun res i =>
      if (hierarchy.getD i 0).idx 3 = -1 then
        cv.drawContours res contours (i : Int) color thickness
      else res)
    result

/-- The local variables of `simpleContourDetection` at its end. -/
structure SimpleLocals where
  blur : Mat Vec3b
  gray : Mat Nat
  thresh : Mat Nat
  contourInput : AnyMat
  contours : List Contour
  hierarchy : List Vec4i
  result : Mat Vec3b

/-- The thresholding step of `simpleContourDetection` (lines 30-31). -/
def simpleThreshold (gray : Mat Nat) : Mat Nat :=
  threshold gray 75 255 THRESH_BINARY

/-- The body of `simpleContourDetection`, without the display calls. -/
def simpleLocals (cv : OpenCV) (image : Mat Vec3b) : SimpleLocals :=
  let result := image.clone
  let blur := cv.medianBlur image 13
  let gray := cv.cvtColor_BGR2GRAY blur
  let thresh := simpleThreshold gray
  let contourInput := AnyMat.u8c1 thresh.clone
  let found := cv.findContours contourInput RETR_CCOMP CHAIN_APPROX_SIMPLE
  let contours := found.1
  let hierarchy := found.2
  let result := drawLoop cv result contours hierarchy (Scalar.bgr 0 255 0) 10
  { blur := blur, gray := gray, thresh := thresh, contourInput := contourInput,
    contours := contours, hierarchy := hierarchy, result := result }

/-- The function `simpleContourDetection`: the returned image and the display events. -/
def simpleContourDetection (cv : OpenCV) (image : Mat Vec3b) : Mat Vec3b × List Event :=
  let s := simpleLocals cv image
  (s.result,
    showImage cv "1. Blur" (AnyMat.u8c3 s.blur) 800 500 ++
    showImage cv "2. Grayscale" (AnyMat.u8c1 s.gray) 800 500 ++
    showImage cv "3. Threshold" (AnyMat.u8c1 s.thresh) 800 500 ++
    showImage cv "4. Contour Detection Result" (AnyMat.u8c3 s.result) 800 500)

/-- The thresholding step of `watershedSegmentation` (lines 63-64). -/
def watershedThreshold (gray : Mat Nat) : Mat Nat :=
  threshold gray 65 255 THRESH_BINARY

/-- The morphological step of `watershedSegmentation` (line 69) for a given kernel. -/
def opening (thresh kernel : Mat Nat) : Mat Nat :=
  morphologyEx thresh MORPH_OPEN kernel (-1, -1) 2

/-- The kernel of `watershedSegmentation` (line 68). -/
def kernel3 : Mat Nat := getStructuringElement MORPH_RECT 3 3

/-- The variables of `watershedSegmentation` computed from `opening` on lines 72-102. -/
structure MarkerLocals where
  dist_transform : Mat ℚ
  maxVal : ℚ
  maxLoc : Nat × Nat
  dist_display : Mat Nat
  sure_foreground : Mat Nat
  sure_background : Mat Nat
  unknown : Mat Nat
  markers : Mat Int

/-- Lines 72-102 of `watershedSegmentation`: from the opened mask to the marker map that is
handed to `watershed`.  On line 87 the literal `0.4` is the double `fl64 0.4`, its product
with the double `maxVal` is rounded to double, and `threshold` works in single precision. -/
def buildMarkers (cv : OpenCV) (opening kernel : Mat Nat) : MarkerLocals :=
  let dist_transform := cv.distanceTransform opening DIST_L2 5
  let mm := minMaxLoc dist_transform
  let maxVal := mm.maxVal
  let dist_display := convertTo_8U (cv.normalize_MINMAX_32F dist_transform 0 255)
  let sure_foreground := threshold_32F dist_transform (fl64 (fl64 0.4 * maxVal)) 255 0
  let sure_foreground := convertTo_8U sure_foreground
  let sure_background := dilate opening kernel (-1, -1) 1
  let unknown := subtract sure_background sure_foreground
  let markers := cv.connectedComponents sure_foreground
  let markers := addScalar markers 1
  let markers := setTo markers 0 (compareEq unknown 255)
  { dist_transform := dist_transform, maxVal := maxVal, maxLoc := mm.maxLoc,
    dist_display := dist_display, sure_foreground := sure_foreground,
    sure_background := sure_background, unknown := unknown, markers := markers }

/-- The local variables of `watershedSegmentation` at its end; `seeds` is `markers` before
the call of `watershed` and `markers` is its value after the call. -/
structure WatershedLocals where
  blur : Mat Vec3b
  gray : Mat Nat
  thresh : Mat Nat
  opening : Mat Nat
  built : MarkerLocals
  markers : Mat Int
  markers_display : Mat Nat
  contourInput : AnyMat
  contours : List Contour
  hierarchy : List Vec4i
  result : Mat Vec3b

/-- Lines 104-120 of `watershedSegmentation`: what is done with the marker map. -/
def growAndDraw (cv : OpenCV) (image : Mat Vec3b) (seeds : Mat Int) :
    Mat Int × Mat Nat × AnyMat × List Contour × List Vec4i × Mat Vec3b :=
  let result := image.clone
  let markers := cv.watershed image.clone seeds
  let markers_display := convertTo_8U_32S (cv.normalize_MINMAX_32S markers 0 255)
  let contourInput := AnyMat.s32c1 markers.clone
  let found := cv.findContours contourInput RETR_CCOMP CHAIN_APPROX_SIMPLE
  let contours := found.1
  let hierarchy := found.2
  let result := drawLoop cv result contours hierarchy (Scalar.bgr 255 0 0) 2
  (markers, markers_display, contourInput, contours, hierarchy, result)

/-- The body of `watershedSegmentation`, without the display calls. -/
def watershedLocals (cv : OpenCV) (image : Mat Vec3b) : WatershedLocals :=
  let blur := cv.medianBlur image 13
  let gray := cv.cvtColor_BGR2GRAY blur
  let thresh := watershedThreshold gray
  let kernel := kernel3
  let opened := opening thresh kernel
  let built := buildMarkers cv opened kernel
  let g := growAndDraw cv image built.markers
  { blur := blur, gray := gray, thresh := thresh, opening := opened, built := built,
    markers := g.1, markers_display := g.2.1, contourInput := g.2.2.1,
    contours := g.2.2.2.1, hierarchy := g.2.2.2.2.1, result := g.2.2.2.2.2 }

/-- The function `watershedSegmentation`: the returned image and the display events. -/
def watershedSegmentation (cv : OpenCV) (image : Mat Vec3b) : Mat Vec3b × List Event :=
  let s := watershedLocals cv image
  (s.result,
    showImage cv "5. Watershed - Blur" (AnyMat.u8c3 s.blur) 800 500 ++
    showImage cv "6. Watershed - Grayscale" (AnyMat.u8c1 s.gray) 800 500 ++
    showImage cv "7. Watershed - Threshold" (AnyMat.u8c1 s.thresh) 800 500 ++
    showImage cv "8. Watershed - Opening" (AnyMat.u8c1 s.opening) 800 500 ++
    showImage cv "9. Watershed - Distance Transform" (AnyMat.u8c1 s.built.dist_display) 800 500 ++
    showImage cv "10. Watershed - Sure Foreground" (AnyMat.u8c1 s.built.sure_foreground) 800 500 ++
    showImage cv "11. Watershed - Unknown Region" (AnyMat.u8c1 s.built.unknown) 800 500 ++
    showImage cv "12. Watershed - Markers" (AnyMat.u8c1 s.markers_display) 800 500 ++
    showImage cv "13. Watershed - Final Result" (AnyMat.u8c3 s.result) 800 500)

/-- The function `main`: the returned status and the events, the result of `imread` being
given by `cv.imread`. -/
def main (cv : OpenCV) : Int × List Event :=
  let imagePath := "coins.jpg"
  let original := cv.imread imagePath
  if original.empty then
    (-1, [Event.cout ("Could not load image: " ++ imagePath ++ "\n")])
  else
    let contourResult := simpleContourDetection cv original
    let watershedResult := watershedSegmentation cv original
    let combined := cv.hconcat [original, contourResult.1, watershedResult.1]
    (0,
      showImage cv "0. Original Image" (AnyMat.u8c3 original) 800 500 ++
      contourResult.2 ++
      watershedResult.2 ++
      showImage cv "Final Comparison: Original | Contour | Watershed" (AnyMat.u8c3 combined)
        1400 700 ++
      [Event.destroyAllWindows])

/-! ## Notions used to state the properties -/

/-- Pointwise order of two masks on the first `rows` rows and `cols` columns. -/
def LeOn (rows cols : Nat) (a b : Mat Nat) : Prop :=
  ∀ r c, r < rows → c < cols → a.px r c ≤ b.px r c

/-- An 8-bit image: every sample is at most 255. -/
def Is8U (m : Mat Nat) : Prop := ∀ v ∈ m.data, v ≤ 255

instance (m : Mat Nat) : Decidable (Is8U m) := by
  unfold Is8U
  infer_instance

/-- The indices `i < contours.size()` with `hierarchy[i][3] == -1`, in increasing order: the
contours without a parent. -/
def externalIndices (contours : List Contour) (hierarchy : List Vec4i) : List Nat :=
  (List.range contours.length).filter (fun i => (hierarchy.getD i 0).idx 3 = -1)

/-- The mask that is 255 exactly at the pixels whose label is the boundary value -1. -/
def boundaryMask (markers : Mat Int) : Mat Nat :=
  Mat.tabulate markers.rows markers.cols (fun r c => if markers.px r c = -1 then 255 else 0)

/-! ## A small instance of the OpenCV record

It is used to instantiate the theorems at concrete inputs.  Its members are simple
stand-ins with the documented properties, not the algorithms of the library. -/

/-- The city-block distance from `(r, c)` to the closest zero pixel of `src`, or
`rows + cols` when `src` has no zero pixel. -/
def cityBlock (src : Mat Nat) (r c : Nat) : Nat :=
  (src.positions.filter (fun q => src.px q.1 q.2 = 0)).foldl
    (fun acc q => min acc ((r - q.1) + (q.1 - r) + ((c - q.2) + (q.2 - c))))
    (src.rows + src.cols)

/-- A 3 x 3 image that is black everywhere. -/
def blackImage : Mat Vec3b := Mat.tabulate 3 3 (fun _ _ => (0, 0, 0))

/-- A stand-in for the library: `imread` gives the black 3 x 3 image; `resize`,
`medianBlur`, `normalize` and `drawContours` return their input; `cvtColor` is the 14-bit
fixed-point luminance; `distanceTransform` is the city-block distance; `connectedComponents`
labels every non-zero pixel 1; `watershed` puts -1 on the one-pixel frame and on the
unlabelled pixels and keeps the positive labels; `findContours` finds nothing; `hconcat`
returns its first image. -/
def cvSimple : OpenCV where
  imread := fun _ => blackImage
  resize := fun image _ _ => image
  medianBlur := fun src _ => src
  cvtColor_BGR2GRAY := fun src =>
    Mat.tabulate src.rows src.cols (fun r c =>
      ((src.px r c).1 * 1868 + (src.px r c).2.1 * 9617 + (src.px r c).2.2 * 4899 + 8192) / 16384)
  distanceTransform := fun src _ _ =>
    Mat.tabulate src.rows src.cols (fun r c => (cityBlock src r c : ℚ))
  normalize_MINMAX_32F := fun src _ _ => src
  normalize_MINMAX_32S := fun src _ _ => src
  connectedComponents := fun src =>
    Mat.tabulate src.rows src.cols (fun r c => if src.px r c = 0 then 0 else 1)
  watershed := fun _ markers =>
    Mat.tabulate markers.rows markers.cols (fun r c =>
      if r = 0 ∨ c = 0 ∨ r + 1 = markers.rows ∨ c + 1 = markers.cols then -1
      else if 0 < markers.px r c then markers.px r c else -1)
  findContours := fun _ _ _ => ([], [])
  drawContours := fun image _ _ _ _ => image
  hconcat := fun images => images.headD ⟨0, 0, []⟩

/-- The stand-in instance with another distance map: 3 in the first column and
5033165 / 4194304 (the float nearest to 1.2) in the other columns of the non-zero pixels. -/
def cvSamples : OpenCV :=
  { cvSimple with
    distanceTransform := fun src _ _ =>
      Mat.tabulate src.rows src.cols (fun r c =>
        if src.px r c = 0 then 0 else if c = 0 then 3 else 5033165 / 4194304) }

/-- A mask of one row with two foreground pixels. -/
def twoPixelMask : Mat Nat := ⟨1, 2, [255, 255]⟩

/-- A 5 x 5 mask with a 3 x 3 block of foreground in the middle. -/
def blockMask : Mat Nat :=
  Mat.tabulate 5 5 (fun r c => if 1 ≤ r ∧ r ≤ 3 ∧ 1 ≤ c ∧ c ≤ 3 then 255 else 0)

/-- A 3 x 3 mask that is 0 everywhere. -/
def zeroMask : Mat Nat := Mat.tabulate 3 3 (fun _ _ => 0)

/-! ## Matrices: basic facts -/

theorem px_tabulate {α : Type} [Zero α] (rows cols : Nat) (f : Nat → Nat → α) (r c : Nat)
    (hr : r < rows) (hc : c < cols) : (Mat.tabulate rows cols f).px r c = f r c := by
  have hlt : r * cols + c < rows * cols := by
    calc r * cols + c < r * cols + cols := by omega
      _ = (r + 1) * cols := by ring
      _ ≤ rows * cols := Nat.mul_le_mul_right _ hr
  have h1 : (r * cols + c) / cols = r := by
    rw [Nat.add_comm, Nat.add_mul_div_right _ _ (by omega : 0 < cols), Nat.div_eq_of_lt hc,
      Nat.zero_add]
  have h2 : (r * cols + c) % cols = c := by
    rw [Nat.add_comm, Nat.add_mul_mod_self_right, Nat.mod_eq_of_lt hc]
  simp [Mat.px, Mat.tabulate, hr, hc, List.getD_eq_getElem?_getD, List.getElem?_map,
    List.getElem?_range hlt, h1, h2]

theorem px_outside {α : Type} [Zero α] (m : Mat α) (r c : Nat)
    (h : ¬ (r < m.rows ∧ c < m.cols)) : m.px r c = 0 := by
  simp [Mat.px, h]

theorem tabulate_congr {α : Type} (rows cols : Nat) (f g : Nat → Nat → α)
    (h : ∀ r c, r < rows → c < cols → f r c = g r c) :
    Mat.tabulate rows cols f = Mat.tabulate rows cols g := by
  unfold Mat.tabulate
  congr 1
  apply List.map_congr_left
  intro i hi
  have hi2 : i < rows * cols := List.mem_range.mp hi
  have hc : 0 < cols := by
    rcases Nat.eq_zero_or_pos cols with h0 | h0
    · rw [h0] at hi2; omega
    · exact h0
  exact h _ _ (Nat.div_lt_of_lt_mul (by rwa [Nat.mul_comm] at hi2)) (Nat.mod_lt _ hc)

/-! ## Morphology with the 3 x 3 rectangle -/

theorem foldl_min_le_iff {β : Type} (f : β → Nat) (l : List β) (a x : Nat) :
    x ≤ l.foldl (fun acc q => min acc (f q)) a ↔ x ≤ a ∧ ∀ q ∈ l, x ≤ f q := by
  induction l generalizing a with
  | nil => simp
  | cons b t ih =>
    simp only [List.foldl_cons, ih, List.mem_cons, forall_eq_or_imp, le_min_iff]
    tauto

theorem foldl_max_le_iff {β : Type} (f : β → Nat) (l : List β) (a y : Nat) :
    l.foldl (fun acc q => max acc (f q)) a ≤ y ↔ a ≤ y ∧ ∀ q ∈ l, f q ≤ y := by
  induction l generalizing a with
  | nil => simp
  | cons b t ih =>
    simp only [List.foldl_cons, ih, List.mem_cons, forall_eq_or_imp, max_le_iff]
    tauto

theorem kernel3_px (i j : Nat) (hi : i < 3) (hj : j < 3) : kernel3.px i j = 1 := by
  unfold kernel3 getStructuringElement
  rw [if_pos rfl]
  exact px_tabulate 3 3 _ i j hi hj

/-- The window of the 3 x 3 rectangle anchored at its centre: the positions of the image at
most one row and one column away. -/
theorem mem_kernelWindow3 (rows cols r c : Nat) (q : Nat × Nat) :
    q ∈ kernelWindow kernel3 (-1, -1) rows cols r c ↔
      q.1 < rows ∧ q.2 < cols ∧ q.1 ≤ r + 1 ∧ r ≤ q.1 + 1 ∧ q.2 ≤ c + 1 ∧ c ≤ q.2 + 1 := by
  have hrows : kernel3.rows = 3 := rfl
  have hcols : kernel3.cols = 3 := rfl
  have ha : normalizeAnchor (-1, -1) kernel3 = (1, 1) := rfl
  unfold kernelWindow
  simp only [ha, hrows, hcols, List.mem_flatMap, List.mem_filterMap, List.mem_range]
  constructor
  · rintro ⟨i, hi, j, hj, h⟩
    split at h
    · rename_i hc
      simp only [Option.some.injEq] at h
      subst h
      simp only
      omega
    · simp at h
  · rintro ⟨h1, h2, h3, h4, h5, h6⟩
    refine ⟨q.1 + 1 - r, by omega, q.2 + 1 - c, by omega, ?_⟩
    have hk := kernel3_px (q.1 + 1 - r) (q.2 + 1 - c) (by omega) (by omega)
    rw [if_pos]
    · have e1 : r + (q.1 + 1 - r) - 1 = q.1 := by omega
      have e2 : c + (q.2 + 1 - c) - 1 = q.2 := by omega
      simp only [e1, e2]
    · refine ⟨by rw [hk]; decide, ?_, ?_, ?_, ?_⟩ <;> omega

theorem mem_kernelWindow3_symm (rows cols r c : Nat) (q : Nat × Nat)
    (hr : r < rows) (hc : c < cols)
    (h : q ∈ kernelWindow kernel3 (-1, -1) rows cols r c) :
    (r, c) ∈ kernelWindow kernel3 (-1, -1) rows cols q.1 q.2 := by
  rw [mem_kernelWindow3] at h ⊢
  simp only
  omega

theorem le_erode1_iff (m : Mat Nat) (r c x : Nat) (hr : r < m.rows) (hc : c < m.cols) :
    x ≤ (erode1 m kernel3 (-1, -1)).px r c ↔
      x ≤ 255 ∧ ∀ q ∈ kernelWindow kernel3 (-1, -1) m.rows m.cols r c, x ≤ m.px q.1 q.2 := by
  unfold erode1
  rw [px_tabulate _ _ _ r c hr hc, foldl_min_le_iff (fun q : Nat × Nat => m.px q.1 q.2)]

theorem dilate1_le_iff (m : Mat Nat) (r c y : Nat) (hr : r < m.rows) (hc : c < m.cols) :
    (dilate1 m kernel3 (-1, -1)).px r c ≤ y ↔
      ∀ q ∈ kernelWindow kernel3 (-1, -1) m.rows m.cols r c, m.px q.1 q.2 ≤ y := by
  unfold dilate1
  rw [px_tabulate _ _ _ r c hr hc, foldl_max_le_iff (fun q : Nat × Nat => m.px q.1 q.2)]
  simp

theorem erode1_le_255 (m : Mat Nat) (r c : Nat) :
    (erode1 m kernel3 (-1, -1)).px r c ≤ 255 := by
  by_cases h : r < m.rows ∧ c < m.cols
  · exact ((le_erode1_iff m r c _ h.1 h.2).mp (le_refl _)).1
  · rw [px_outside (erode1 m kernel3 (-1, -1)) r c h]; omega

/-- Erosion and dilation by the symmetric 3 x 3 window are adjoint: on masks of one size,
`dilate1 f ≤ g` exactly when `f ≤ erode1 g`, provided `f` is an 8-bit mask. -/
theorem dilate1_le_iff_le_erode1 (f g : Mat Nat)
    (hrows : f.rows = g.rows) (hcols : f.cols = g.cols)
    (hf : ∀ r c, f.px r c ≤ 255) :
    LeOn g.rows g.cols (dilate1 f kernel3 (-1, -1)) g ↔
      LeOn g.rows g.cols f (erode1 g kernel3 (-1, -1)) := by
  constructor
  · intro h r c hr hc
    rw [le_erode1_iff g r c _ hr hc]
    refine ⟨hf r c, fun q hq => ?_⟩
    have hq2 := (mem_kernelWindow3 _ _ _ _ _).mp hq
    have hsym := mem_kernelWindow3_symm _ _ r c q hr hc hq
    have := h q.1 q.2 hq2.1 hq2.2.1
    rw [dilate1_le_iff f q.1 q.2 _ (by omega) (by omega), hrows, hcols] at this
    exact this (r, c) hsym
  · intro h r c hr hc
    rw [dilate1_le_iff f r c _ (by omega) (by omega), hrows, hcols]
    intro q hq
    have hq2 := (mem_kernelWindow3 _ _ _ _ _).mp hq
    have hsym := mem_kernelWindow3_symm _ _ r c q hr hc hq
    have := h q.1 q.2 hq2.1 hq2.2.1
    rw [le_erode1_iff g q.1 q.2 _ hq2.1 hq2.2.1] at this
    exact this.2 (r, c) hsym

theorem erode1_rows (m : Mat Nat) : (erode1 m kernel3 (-1, -1)).rows = m.rows := rfl
theorem erode1_cols (m : Mat Nat) : (erode1 m kernel3 (-1, -1)).cols = m.cols := rfl
theorem dilate1_rows (m : Mat Nat) : (dilate1 m kernel3 (-1, -1)).rows = m.rows := rfl
theorem dilate1_cols (m : Mat Nat) : (dilate1 m kernel3 (-1, -1)).cols = m.cols := rfl

theorem dilate1_le_255 (m : Mat Nat) (hm : ∀ r c, m.px r c ≤ 255) (r c : Nat) :
    (dilate1 m kernel3 (-1, -1)).px r c ≤ 255 := by
  by_cases h : r < m.rows ∧ c < m.cols
  · rw [dilate1_le_iff m r c _ h.1 h.2]
    intro q _
    exact hm _ _
  · rw [px_outside (dilate1 m kernel3 (-1, -1)) r c h]; omega

theorem erode1_mono (a b : Mat Nat) (R C : Nat) (haR : a.rows = R) (haC : a.cols = C)
    (hbR : b.rows = R) (hbC : b.cols = C) (h : LeOn R C a b) :
    LeOn R C (erode1 a kernel3 (-1, -1)) (erode1 b kernel3 (-1, -1)) := by
  subst hbR hbC
  intro r c hr hc
  rw [le_erode1_iff b r c _ hr hc]
  have hself := (le_erode1_iff a r c _ (by omega) (by omega)).mp (le_refl _)
  refine ⟨hself.1, fun q hq => ?_⟩
  have hq2 := (mem_kernelWindow3 _ _ _ _ _).mp hq
  rw [haR, haC] at hself
  exact le_trans (hself.2 q hq) (h q.1 q.2 hq2.1 hq2.2.1)

theorem dilate1_mono (a b : Mat Nat) (R C : Nat) (haR : a.rows = R) (haC : a.cols = C)
    (hbR : b.rows = R) (hbC : b.cols = C) (h : LeOn R C a b) :
    LeOn R C (dilate1 a kernel3 (-1, -1)) (dilate1 b kernel3 (-1, -1)) := by
  subst hbR hbC
  intro r c hr hc
  rw [dilate1_le_iff a r c _ (by omega) (by omega), haR, haC]
  have hself := (dilate1_le_iff b r c _ hr hc).mp (le_refl _)
  intro q hq
  have hq2 := (mem_kernelWindow3 _ _ _ _ _).mp hq
  exact le_trans (h q.1 q.2 hq2.1 hq2.2.1) (hself q hq)

theorem leOn_refl (rows cols : Nat) (a : Mat Nat) : LeOn rows cols a a :=
  fun _ _ _ _ => le_refl _

theorem leOn_trans (rows cols : Nat) (a b c : Mat Nat)
    (h1 : LeOn rows cols a b) (h2 : LeOn rows cols b c) : LeOn rows cols a c :=
  fun r k hr hk => le_trans (h1 r k hr hk) (h2 r k hr hk)

/-- Dilating an eroded mask gives at most the mask. -/
theorem dilate1_erode1_le (g : Mat Nat) (R C : Nat) (hR : g.rows = R) (hC : g.cols = C) :
    LeOn R C (dilate1 (erode1 g kernel3 (-1, -1)) kernel3 (-1, -1)) g := by
  subst hR hC
  exact (dilate1_le_iff_le_erode1 (erode1 g kernel3 (-1, -1)) g (erode1_rows g) (erode1_cols g)
    (erode1_le_255 g)).mpr (leOn_refl _ _ _)

/-- Eroding a dilated 8-bit mask gives at least the mask. -/
theorem le_erode1_dilate1 (f : Mat Nat) (R C : Nat) (hR : f.rows = R) (hC : f.cols = C)
    (hf : ∀ r c, f.px r c ≤ 255) :
    LeOn R C f (erode1 (dilate1 f kernel3 (-1, -1)) kernel3 (-1, -1)) := by
  subst hR hC
  have h := (dilate1_le_iff_le_erode1 f (dilate1 f kernel3 (-1, -1)) (dilate1_rows f).symm
    (dilate1_cols f).symm hf).mp (leOn_refl _ _ _)
  rwa [dilate1_rows, dilate1_cols] at h

theorem opening_eq (m : Mat Nat) :
    opening m kernel3 =
      dilate1 (dilate1 (erode1 (erode1 m kernel3 (-1, -1)) kernel3 (-1, -1)) kernel3 (-1, -1))
        kernel3 (-1, -1) := rfl

theorem tabulate_eq_of_px {α : Type} [Zero α] (rows cols : Nat) (f g : Nat → Nat → α)
    (h : ∀ r c, r < rows → c < cols →
      (Mat.tabulate rows cols f).px r c = (Mat.tabulate rows cols g).px r c) :
    Mat.tabulate rows cols f = Mat.tabulate rows cols g := by
  apply tabulate_congr
  intro r c hr hc
  have := h r c hr hc
  rwa [px_tabulate _ _ _ r c hr hc, px_tabulate _ _ _ r c hr hc] at this

theorem dilate1_eq_of_leOn (a b : Mat Nat) (R C : Nat) (haR : a.rows = R) (haC : a.cols = C)
    (hbR : b.rows = R) (hbC : b.cols = C)
    (h1 : LeOn R C (dilate1 a kernel3 (-1, -1)) (dilate1 b kernel3 (-1, -1)))
    (h2 : LeOn R C (dilate1 b kernel3 (-1, -1)) (dilate1 a kernel3 (-1, -1))) :
    dilate1 a kernel3 (-1, -1) = dilate1 b kernel3 (-1, -1) := by
  have key : ∀ r c, r < R → c < C →
      (dilate1 a kernel3 (-1, -1)).px r c = (dilate1 b kernel3 (-1, -1)).px r c :=
    fun r c hr hc => le_antisymm (h1 r c hr hc) (h2 r c hr hc)
  unfold dilate1 at key ⊢
  rw [haR, haC] at key ⊢
  rw [hbR, hbC] at key ⊢
  exact tabulate_eq_of_px _ _ _ _ key

/-- Opening a mask that is already of the form `dilate1 (dilate1 e)` for an 8-bit `e`
gives it back. -/
theorem open_dilated (e : Mat Nat) (he : ∀ r c, e.px r c ≤ 255) :
    dilate1 (dilate1 (erode1 (erode1 (dilate1 (dilate1 e kernel3 (-1, -1)) kernel3 (-1, -1))
      kernel3 (-1, -1)) kernel3 (-1, -1)) kernel3 (-1, -1)) kernel3 (-1, -1) =
    dilate1 (dilate1 e kernel3 (-1, -1)) kernel3 (-1, -1) := by
  generalize hd1 : dilate1 e kernel3 (-1, -1) = d1
  generalize hd2 : dilate1 d1 kernel3 (-1, -1) = d2
  generalize hx1 : erode1 d2 kernel3 (-1, -1) = x1
  generalize hx2 : erode1 x1 kernel3 (-1, -1) = x2
  generalize hy1 : dilate1 x2 kernel3 (-1, -1) = y1
  have rd1 : d1.rows = e.rows := by rw [← hd1, dilate1_rows]
  have cd1 : d1.cols = e.cols := by rw [← hd1, dilate1_cols]
  have rd2 : d2.rows = e.rows := by rw [← hd2, dilate1_rows, rd1]
  have cd2 : d2.cols = e.cols := by rw [← hd2, dilate1_cols, cd1]
  have rx1 : x1.rows = e.rows := by rw [← hx1, erode1_rows, rd2]
  have cx1 : x1.cols = e.cols := by rw [← hx1, erode1_cols, cd2]
  have rx2 : x2.rows = e.rows := by rw [← hx2, erode1_rows, rx1]
  have cx2 : x2.cols = e.cols := by rw [← hx2, erode1_cols, cx1]
  have ry1 : y1.rows = e.rows := by rw [← hy1, dilate1_rows, rx2]
  have cy1 : y1.cols = e.cols := by rw [← hy1, dilate1_cols, cx2]
  have d1_255 : ∀ r c, d1.px r c ≤ 255 := by rw [← hd1]; exact dilate1_le_255 e he
  -- the opening only removes
  have le1 : LeOn e.rows e.cols (dilate1 y1 kernel3 (-1, -1)) d2 := by
    have a1 : LeOn e.rows e.cols y1 x1 := by
      rw [← hy1, ← hx2]; exact dilate1_erode1_le x1 _ _ rx1 cx1
    have a2 := dilate1_mono y1 x1 _ _ ry1 cy1 rx1 cx1 a1
    have a3 : LeOn e.rows e.cols (dilate1 x1 kernel3 (-1, -1)) d2 := by
      rw [← hx1]; exact dilate1_erode1_le d2 _ _ rd2 cd2
    exact leOn_trans _ _ _ _ _ a2 a3
  -- and keeps what was there
  have le2 : LeOn e.rows e.cols d2 (dilate1 y1 kernel3 (-1, -1)) := by
    have b1 : LeOn e.rows e.cols e (erode1 d1 kernel3 (-1, -1)) := by
      rw [← hd1]; exact le_erode1_dilate1 e _ _ rfl rfl he
    have b2 : LeOn e.rows e.cols d1 x1 := by
      rw [← hx1, ← hd2]; exact le_erode1_dilate1 d1 _ _ rd1 cd1 d1_255
    have b3 : LeOn e.rows e.cols (erode1 d1 kernel3 (-1, -1)) x2 := by
      rw [← hx2]; exact erode1_mono d1 x1 _ _ rd1 cd1 rx1 cx1 b2
    have b4 : LeOn e.rows e.cols e x2 := leOn_trans _ _ _ _ _ b1 b3
    have b5 : LeOn e.rows e.cols d1 y1 := by
      rw [← hd1, ← hy1]; exact dilate1_mono e x2 _ _ rfl rfl rx2 cx2 b4
    rw [← hd2]
    exact dilate1_mono d1 y1 _ _ rd1 cd1 ry1 cy1 b5
  rw [← hd2] at le1 le2 ⊢
  exact dilate1_eq_of_leOn y1 d1 _ _ ry1 cy1 rd1 cd1 le1 le2

/-- C7: the cleaner of `watershedSegmentation` (opening with the 3 x 3 rectangle, two
erosions followed by two dilations) is idempotent: opening an opened mask returns it
unchanged, for every mask of every size. -/
theorem opening_idempotent (m : Mat Nat) :
    opening (opening m kernel3) kernel3 = opening m kernel3 := by
  rw [opening_eq (opening m kernel3), opening_eq m]
  exact open_dilated (erode1 (erode1 m kernel3 (-1, -1)) kernel3 (-1, -1)) (erode1_le_255 _)

/-! ## Thresholding (C1) -/

theorem threshold_binary_px (src : Mat Nat) (thresh maxval r c : Nat) :
    (threshold src thresh maxval THRESH_BINARY).px r c =
      if thresh < src.px r c then maxval else 0 := by
  by_cases h : r < src.rows ∧ c < src.cols
  · unfold threshold THRESH_BINARY
    rw [px_tabulate _ _ _ r c h.1 h.2]
  · have h1 : (threshold src thresh maxval THRESH_BINARY).px r c = 0 :=
      px_outside (threshold src thresh maxval THRESH_BINARY) r c h
    have h2 : src.px r c = 0 := px_outside src r c h
    rw [h1, h2]
    simp

/-- C1, as the code has it: the binarization of both pipelines marks a pixel foreground (255)
exactly when its grey value is strictly greater than the threshold (75 in
`simpleContourDetection`, 65 in `watershedSegmentation`), and background (0) exactly when it is
less than or equal to the threshold; a pixel equal to the threshold is background. -/
theorem threshold_strictly_greater (gray : Mat Nat) (r c : Nat) :
    (((simpleThreshold gray).px r c = 255 ↔ 75 < gray.px r c) ∧
      ((simpleThreshold gray).px r c = 0 ↔ gray.px r c ≤ 75)) ∧
    (((watershedThreshold gray).px r c = 255 ↔ 65 < gray.px r c) ∧
      ((watershedThreshold gray).px r c = 0 ↔ gray.px r c ≤ 65)) ∧
    (simpleThreshold gray).rows = gray.rows ∧ (simpleThreshold gray).cols = gray.cols ∧
    (watershedThreshold gray).rows = gray.rows ∧ (watershedThreshold gray).cols = gray.cols := by
  unfold simpleThreshold watershedThreshold
  rw [threshold_binary_px, threshold_binary_px]
  refine ⟨⟨?_, ?_⟩, ⟨?_, ?_⟩, rfl, rfl, rfl, rfl⟩
  · by_cases h : 75 < gray.px r c <;> simp [h]
  · by_cases h : 75 < gray.px r c <;> simp [h]; omega
  · by_cases h : 65 < gray.px r c <;> simp [h]
  · by_cases h : 65 < gray.px r c <;> simp [h]; omega

/-- C1 as stated fails: a pixel of grey value exactly 75 is background (0) after the
binarization of `simpleContourDetection`, and a pixel of grey value exactly 65 is background
after the binarization of `watershedSegmentation`, although each is at least the threshold. -/
theorem threshold_equal_is_background :
    (simpleThreshold ⟨1, 4, [75, 76, 65, 66]⟩) = ⟨1, 4, [0, 255, 0, 0]⟩ ∧
    (watershedThreshold ⟨1, 4, [75, 76, 65, 66]⟩) = ⟨1, 4, [255, 255, 0, 255]⟩ ∧
    ¬ ((simpleThreshold ⟨1, 4, [75, 76, 65, 66]⟩).px 0 0 = 255 ↔
        75 ≤ (⟨1, 4, [75, 76, 65, 66]⟩ : Mat Nat).px 0 0) ∧
    ¬ ((watershedThreshold ⟨1, 4, [75, 76, 65, 66]⟩).px 0 2 = 255 ↔
        65 ≤ (⟨1, 4, [75, 76, 65, 66]⟩ : Mat Nat).px 0 2) := by
  decide

/-! ## The unknown region (C8) -/

theorem subtract_px (a b : Mat Nat) (r c : Nat) (hr : r < a.rows) (hc : c < a.cols) :
    (subtract a b).px r c = saturate_cast_uchar ((a.px r c : Int) - (b.px r c : Int)) := by
  unfold subtract
  rw [px_tabulate _ _ _ r c hr hc]

/-- C8: for two-valued 8-bit masks the saturating `subtract` is the set difference: the
result is 255 exactly where the first mask is 255 and the second is 0, and 0 elsewhere; in
particular it is 0 (no wrap-around) where the first is 0 and the second is 255. -/
theorem subtract_is_set_difference (sure_background sure_foreground : Mat Nat) (r c : Nat)
    (hb : sure_background.px r c = 0 ∨ sure_background.px r c = 255)
    (hf : sure_foreground.px r c = 0 ∨ sure_foreground.px r c = 255) :
    ((subtract sure_background sure_foreground).px r c = 255 ↔
      sure_background.px r c = 255 ∧ sure_foreground.px r c = 0) ∧
    ((subtract sure_background sure_foreground).px r c = 0 ↔
      ¬ (sure_background.px r c = 255 ∧ sure_foreground.px r c = 0)) ∧
    (sure_background.px r c = 0 → sure_foreground.px r c = 255 →
      (subtract sure_background sure_foreground).px r c = 0) := by
  by_cases h : r < sure_background.rows ∧ c < sure_background.cols
  · rw [subtract_px _ _ r c h.1 h.2]
    rcases hb with hb | hb <;> rcases hf with hf | hf <;> rw [hb, hf] <;> decide
  · have h1 : (subtract sure_background sure_foreground).px r c = 0 :=
      px_outside (subtract sure_background sure_foreground) r c h
    have h2 : sure_background.px r c = 0 := px_outside sure_background r c h
    rw [h1, h2]
    simp

/-- C8 at a concrete input: background mask `[255, 255, 0, 0]`, foreground mask
`[0, 255, 0, 255]`, at the last pixel (background 0, foreground 255). -/
theorem subtract_is_set_difference_witness :
    ((subtract ⟨1, 4, [255, 255, 0, 0]⟩ ⟨1, 4, [0, 255, 0, 255]⟩).px 0 3 = 255 ↔
      (⟨1, 4, [255, 255, 0, 0]⟩ : Mat Nat).px 0 3 = 255 ∧
        (⟨1, 4, [0, 255, 0, 255]⟩ : Mat Nat).px 0 3 = 0) ∧
    ((subtract ⟨1, 4, [255, 255, 0, 0]⟩ ⟨1, 4, [0, 255, 0, 255]⟩).px 0 3 = 0 ↔
      ¬ ((⟨1, 4, [255, 255, 0, 0]⟩ : Mat Nat).px 0 3 = 255 ∧
        (⟨1, 4, [0, 255, 0, 255]⟩ : Mat Nat).px 0 3 = 0)) ∧
    ((⟨1, 4, [255, 255, 0, 0]⟩ : Mat Nat).px 0 3 = 0 →
      (⟨1, 4, [0, 255, 0, 255]⟩ : Mat Nat).px 0 3 = 255 →
      (subtract ⟨1, 4, [255, 255, 0, 0]⟩ ⟨1, 4, [0, 255, 0, 255]⟩).px 0 3 = 0) :=
  subtract_is_set_difference ⟨1, 4, [255, 255, 0, 0]⟩ ⟨1, 4, [0, 255, 0, 255]⟩ 0 3
    (by decide) (by decide)

/-! ## Facts about the written-out OpenCV calls -/

theorem mem_positions {α : Type} (m : Mat α) (p : Nat × Nat) :
    p ∈ m.positions ↔ p.1 < m.rows ∧ p.2 < m.cols := by
  unfold Mat.positions
  simp only [List.mem_map, List.mem_range]
  constructor
  · rintro ⟨i, hi, rfl⟩
    have hc : 0 < m.cols := by
      rcases Nat.eq_zero_or_pos m.cols with h0 | h0
      · rw [h0] at hi; omega
      · exact h0
    exact ⟨Nat.div_lt_of_lt_mul (by rwa [Nat.mul_comm] at hi), Nat.mod_lt _ hc⟩
  · rintro ⟨hr, hc⟩
    refine ⟨p.1 * m.cols + p.2, ?_, ?_⟩
    · calc p.1 * m.cols + p.2 < p.1 * m.cols + m.cols := by omega
        _ = (p.1 + 1) * m.cols := by ring
        _ ≤ m.rows * m.cols := Nat.mul_le_mul_right _ hr
    · have h1 : (p.1 * m.cols + p.2) / m.cols = p.1 := by
        rw [Nat.add_comm, Nat.add_mul_div_right _ _ (by omega : 0 < m.cols),
          Nat.div_eq_of_lt hc, Nat.zero_add]
      have h2 : (p.1 * m.cols + p.2) % m.cols = p.2 := by
        rw [Nat.add_comm, Nat.add_mul_mod_self_right, Nat.mod_eq_of_lt hc]
      rw [h1, h2]

theorem minMaxLoc_scan (src : Mat ℚ) (l : List (Nat × Nat)) (acc : MinMax) :
    acc.maxVal ≤ (l.foldl (minMaxStep src) acc).maxVal ∧
      (∀ p ∈ l, src.px p.1 p.2 ≤ (l.foldl (minMaxStep src) acc).maxVal) ∧
      (((l.foldl (minMaxStep src) acc).maxLoc = acc.maxLoc ∧
          (l.foldl (minMaxStep src) acc).maxVal = acc.maxVal) ∨
        ((l.foldl (minMaxStep src) acc).maxLoc ∈ l ∧
          (l.foldl (minMaxStep src) acc).maxVal =
            src.px (l.foldl (minMaxStep src) acc).maxLoc.1
              (l.foldl (minMaxStep src) acc).maxLoc.2)) := by
  induction l generalizing acc with
  | nil => simp
  | cons p t ih =>
    simp only [List.foldl_cons]
    obtain ⟨h1, h2, h3⟩ := ih (minMaxStep src acc p)
    have hv : (minMaxStep src acc p).maxVal =
        if acc.maxVal < src.px p.1 p.2 then src.px p.1 p.2 else acc.maxVal := rfl
    have hl : (minMaxStep src acc p).maxLoc =
        if acc.maxVal < src.px p.1 p.2 then p else acc.maxLoc := rfl
    generalize (t.foldl (minMaxStep src) (minMaxStep src acc p)) = res at h1 h2 h3 ⊢
    by_cases hlt : acc.maxVal < src.px p.1 p.2
    · rw [if_pos hlt] at hv hl
      rw [hv] at h1 h3
      rw [hl] at h3
      refine ⟨le_trans (le_of_lt hlt) h1, ?_, ?_⟩
      · intro q hq
        rcases List.mem_cons.mp hq with rfl | hq
        · exact h1
        · exact h2 q hq
      · right
        rcases h3 with ⟨h3a, h3b⟩ | ⟨h3a, h3b⟩
        · refine ⟨?_, ?_⟩
          · rw [h3a]; exact List.mem_cons_self _ _
          · rw [h3b, h3a]
        · exact ⟨List.mem_cons_of_mem _ h3a, h3b⟩
    · rw [if_neg hlt] at hv hl
      rw [hv] at h1 h3
      rw [hl] at h3
      refine ⟨h1, ?_, ?_⟩
      · intro q hq
        rcases List.mem_cons.mp hq with rfl | hq
        · exact le_trans (not_lt.mp hlt) h1
        · exact h2 q hq
      · rcases h3 with ⟨h3a, h3b⟩ | ⟨h3a, h3b⟩
        · left; exact ⟨h3a, h3b⟩
        · right; exact ⟨List.mem_cons_of_mem _ h3a, h3b⟩

theorem minMaxLoc_maxVal_eq (src : Mat ℚ) :
    (minMaxLoc src).maxVal = src.px (minMaxLoc src).maxLoc.1 (minMaxLoc src).maxLoc.2 := by
  have h := minMaxLoc_scan src src.positions
    { minVal := src.px 0 0, maxVal := src.px 0 0, minLoc := (0, 0), maxLoc := (0, 0) }
  simp only at h
  change _ ≤ (minMaxLoc src).maxVal ∧ (∀ p ∈ src.positions, _ ≤ (minMaxLoc src).maxVal) ∧
    (((minMaxLoc src).maxLoc = (0, 0) ∧ (minMaxLoc src).maxVal = src.px 0 0) ∨
      ((minMaxLoc src).maxLoc ∈ src.positions ∧ (minMaxLoc src).maxVal =
        src.px (minMaxLoc src).maxLoc.1 (minMaxLoc src).maxLoc.2)) at h
  rcases h.2.2 with ⟨h1, h2⟩ | ⟨_, h2⟩
  · rw [h2, h1]
  · exact h2

theorem minMaxLoc_le_maxVal (src : Mat ℚ) (r c : Nat) (hr : r < src.rows) (hc : c < src.cols) :
    src.px r c ≤ (minMaxLoc src).maxVal := by
  have h := minMaxLoc_scan src src.positions
    { minVal := src.px 0 0, maxVal := src.px 0 0, minLoc := (0, 0), maxLoc := (0, 0) }
  simp only at h
  change _ ≤ (minMaxLoc src).maxVal ∧ (∀ p ∈ src.positions, _ ≤ (minMaxLoc src).maxVal) ∧
    (((minMaxLoc src).maxLoc = (0, 0) ∧ (minMaxLoc src).maxVal = src.px 0 0) ∨
      ((minMaxLoc src).maxLoc ∈ src.positions ∧ (minMaxLoc src).maxVal =
        src.px (minMaxLoc src).maxLoc.1 (minMaxLoc src).maxLoc.2)) at h
  exact h.2.1 (r, c) ((mem_positions src (r, c)).mpr ⟨hr, hc⟩)

theorem cvRound_intCast (n : Int) : cvRound (n : ℚ) = n := by
  have hf : Rat.floor (n : ℚ) = n := by
    show ⌊(n : ℚ)⌋ = n
    exact Int.floor_intCast n
  unfold cvRound
  simp only [hf, sub_self]
  norm_num

theorem convertTo_8U_px (src : Mat ℚ) (r c : Nat) (hr : r < src.rows) (hc : c < src.cols) :
    (convertTo_8U src).px r c = saturate_cast_uchar (cvRound (src.px r c)) := by
  unfold convertTo_8U
  rw [px_tabulate _ _ _ r c hr hc]

theorem threshold_binary_px_inside {α : Type} [Zero α] [LT α]
    [DecidableRel (fun a b : α => a < b)] (src : Mat α) (thresh maxval : α) (r c : Nat)
    (hr : r < src.rows) (hc : c < src.cols) :
    (threshold src thresh maxval 0).px r c = if thresh < src.px r c then maxval else 0 := by
  unfold threshold
  rw [px_tabulate _ _ _ r c hr hc]

/-! ## Floating-point rounding -/

theorem floor_eq (x : ℚ) : Rat.floor x = ⌊x⌋ := rfl

theorem cvRound_err (t : ℚ) : |(cvRound t : ℚ) - t| ≤ 1 / 2 := by
  have h1 : ((⌊t⌋ : Int) : ℚ) ≤ t := Int.floor_le t
  have h2 : t < (⌊t⌋ : ℚ) + 1 := Int.lt_floor_add_one t
  unfold cvRound
  simp only [floor_eq]
  rw [abs_le]
  split_ifs <;> push_cast <;> constructor <;> linarith

theorem cvRound_nonneg (t : ℚ) (ht : 0 ≤ t) : 0 ≤ cvRound t := by
  have hf : 0 ≤ ⌊t⌋ := Int.floor_nonneg.mpr ht
  unfold cvRound
  simp only [floor_eq]
  split_ifs <;> omega

theorem half_le_of_cvRound_pos (t : ℚ) (h : 0 < cvRound t) : 1 / 2 ≤ t := by
  by_contra hlt
  push_neg at hlt
  have h1 := cvRound_err t
  rw [abs_le] at h1
  have h2 : (cvRound t : ℚ) < 1 := by linarith
  have h3 : cvRound t < 1 := by exact_mod_cast h2
  omega


theorem roundTo_zero (p : Nat) (emin : Int) : roundTo p emin 0 = 0 := by
  unfold roundTo
  rw [if_pos rfl]

theorem roundTo_nonneg (p : Nat) (emin : Int) (x : ℚ) (hx : 0 ≤ x) : 0 ≤ roundTo p emin x := by
  unfold roundTo
  split
  · exact le_refl _
  · have hq : (0 : ℚ) < 2 ^ (max (Int.log 2 |x|) emin - ((p : Int) - 1)) := by positivity
    have := cvRound_nonneg (x / 2 ^ (max (Int.log 2 |x|) emin - ((p : Int) - 1)))
      (div_nonneg hx (le_of_lt hq))
    have h2 : (0 : ℚ) ≤ (cvRound (x / 2 ^ (max (Int.log 2 |x|) emin - ((p : Int) - 1))) : ℚ) := by
      exact_mod_cast this
    exact mul_nonneg h2 (le_of_lt hq)

/-- The rounding error is at most half a unit in the last place. -/
theorem roundTo_err (p : Nat) (emin : Int) (x : ℚ) (hx : x ≠ 0) :
    |roundTo p emin x - x| ≤ 2 ^ (max (Int.log 2 |x|) emin - ((p : Int) - 1)) / 2 := by
  unfold roundTo
  rw [if_neg hx]
  generalize hq : (2 : ℚ) ^ (max (Int.log 2 |x|) emin - ((p : Int) - 1)) = q
  have hqpos : 0 < q := by rw [← hq]; positivity
  have h := cvRound_err (x / q)
  have e : (cvRound (x / q) : ℚ) * q - x = ((cvRound (x / q) : ℚ) - x / q) * q := by
    field_simp
  rw [e, abs_mul, abs_of_pos hqpos]
  calc |(cvRound (x / q) : ℚ) - x / q| * q ≤ 1 / 2 * q := mul_le_mul_of_nonneg_right h (le_of_lt hqpos)
    _ = q / 2 := by ring

/-- A positive number rounds to zero or to at most twice itself. -/
theorem roundTo_le_two_mul (p : Nat) (emin : Int) (x : ℚ) (hx : 0 < x) :
    roundTo p emin x ≤ 2 * x := by
  unfold roundTo
  rw [if_neg (ne_of_gt hx)]
  generalize hq : (2 : ℚ) ^ (max (Int.log 2 |x|) emin - ((p : Int) - 1)) = q
  have hqpos : 0 < q := by rw [← hq]; positivity
  have hnn := cvRound_nonneg (x / q) (div_nonneg (le_of_lt hx) (le_of_lt hqpos))
  rcases eq_or_lt_of_le hnn with h0 | hpos
  · rw [← h0]
    simp only [Int.cast_zero, zero_mul]
    linarith
  · have hhalf := half_le_of_cvRound_pos (x / q) hpos
    have herr := cvRound_err (x / q)
    rw [abs_le] at herr
    have h1 : (cvRound (x / q) : ℚ) ≤ 2 * (x / q) := by linarith
    calc (cvRound (x / q) : ℚ) * q ≤ 2 * (x / q) * q := mul_le_mul_of_nonneg_right h1 (le_of_lt hqpos)
      _ = 2 * x := by field_simp

/-- In the normal range the relative rounding error is at most `2 ^ (-p)`. -/
theorem roundTo_le_normal (p : Nat) (emin : Int) (x : ℚ) (hx : 0 < x)
    (hn : (2 : ℚ) ^ emin ≤ x) : roundTo p emin x ≤ x + x * 2 ^ (-(p : Int)) := by
  have hlog : emin ≤ Int.log 2 x := by
    have := (Int.zpow_le_iff_le_log (b := 2) (by norm_num) hx (x := emin)).mp (by exact_mod_cast hn)
    exact this
  have herr := roundTo_err p emin x (ne_of_gt hx)
  rw [abs_of_pos hx, max_eq_left hlog, abs_le] at herr
  have hpow : (2 : ℚ) ^ (Int.log 2 x - ((p : Int) - 1)) / 2 = 2 ^ Int.log 2 x * 2 ^ (-(p : Int)) := by
    rw [show Int.log 2 x - ((p : Int) - 1) = Int.log 2 x + (-(p : Int)) + 1 by ring,
      zpow_add₀ (by norm_num : (2 : ℚ) ≠ 0), zpow_add₀ (by norm_num : (2 : ℚ) ≠ 0), zpow_one]
    ring
  have hle : (2 : ℚ) ^ Int.log 2 x ≤ x := by
    have := Int.zpow_log_le_self (b := 2) (by norm_num) hx
    exact_mod_cast this
  have hp : (0 : ℚ) < 2 ^ (-(p : Int)) := by positivity
  have : (2 : ℚ) ^ Int.log 2 x * 2 ^ (-(p : Int)) ≤ x * 2 ^ (-(p : Int)) :=
    mul_le_mul_of_nonneg_right hle (le_of_lt hp)
  linarith [herr.2]

/-- Below the normal range a positive number that does not round to zero is at least half the
least positive floating-point number. -/
theorem le_of_roundTo_ne_zero (p : Nat) (emin : Int) (x : ℚ) (hx : 0 < x)
    (hs : x < (2 : ℚ) ^ emin) (hne : roundTo p emin x ≠ 0) :
    (2 : ℚ) ^ (emin - (p : Int)) ≤ x := by
  have hlog : Int.log 2 x < emin := by
    have := (Int.lt_zpow_iff_log_lt (b := 2) (by norm_num) hx (x := emin)).mp (by exact_mod_cast hs)
    exact this
  unfold roundTo at hne
  rw [if_neg (ne_of_gt hx), abs_of_pos hx, max_eq_right (le_of_lt hlog)] at hne
  have hqpos : (0 : ℚ) < 2 ^ (emin - ((p : Int) - 1)) := by positivity
  have hnn := cvRound_nonneg (x / 2 ^ (emin - ((p : Int) - 1))) (div_nonneg (le_of_lt hx) (le_of_lt hqpos))
  have hpos : 0 < cvRound (x / 2 ^ (emin - ((p : Int) - 1))) := by
    rcases eq_or_lt_of_le hnn with h0 | hpos
    · exfalso
      apply hne
      rw [← h0]
      simp
    · exact hpos
  have hhalf := half_le_of_cvRound_pos _ hpos
  rw [le_div_iff₀ hqpos] at hhalf
  have hpow : (1 : ℚ) / 2 * 2 ^ (emin - ((p : Int) - 1)) = 2 ^ (emin - (p : Int)) := by
    rw [show emin - ((p : Int) - 1) = emin - (p : Int) + 1 by ring,
      zpow_add₀ (by norm_num : (2 : ℚ) ≠ 0), zpow_one]
    ring
  rw [hpow] at hhalf
  exact hhalf


theorem cvRound_eval (t : ℚ) (f : Int) (h1 : (f : ℚ) ≤ t) (h2 : t < (f : ℚ) + 1) :
    cvRound t =
      if t - f < 1 / 2 then f else if 1 / 2 < t - f then f + 1
      else if f % 2 = 0 then f else f + 1 := by
  have hf : Rat.floor t = f := by
    show ⌊t⌋ = f
    exact Int.floor_eq_iff.mpr ⟨h1, h2⟩
  unfold cvRound
  simp only [hf]

theorem roundTo_eval (p : Nat) (emin : Int) (x : ℚ) (e n : Int) (hx : 0 < x)
    (h1 : (2 : ℚ) ^ e ≤ x) (h2 : x < (2 : ℚ) ^ (e + 1))
    (hn : cvRound (x / 2 ^ (max e emin - ((p : Int) - 1))) = n) :
    roundTo p emin x = (n : ℚ) * 2 ^ (max e emin - ((p : Int) - 1)) := by
  have hlog : Int.log 2 x = e := by
    have a := (Int.zpow_le_iff_le_log (b := 2) (by norm_num) hx (x := e)).mp (by exact_mod_cast h1)
    have b := (Int.lt_zpow_iff_log_lt (b := 2) (by norm_num) hx (x := e + 1)).mp
      (by exact_mod_cast h2)
    omega
  unfold roundTo
  rw [if_neg (ne_of_gt hx), abs_of_pos hx, hlog, hn]

/-- The double nearest to 0.4. -/
theorem fl64_0_4 : fl64 0.4 = 3602879701896397 / 9007199254740992 := by
  have h := roundTo_eval 53 (-1022) 0.4 (-2) 7205759403792794 (by norm_num) (by norm_num)
    (by norm_num) (by
      rw [cvRound_eval _ 7205759403792793 (by norm_num) (by norm_num)]
      norm_num)
  unfold fl64
  rw [h]
  norm_num

theorem fl32_255 : fl32 255 = 255 := by
  have h := roundTo_eval 24 (-126) 255 7 16711680 (by norm_num) (by norm_num)
    (by norm_num) (by
      rw [cvRound_eval _ 16711680 (by norm_num) (by norm_num)]
      norm_num)
  unfold fl32
  rw [h]
  norm_num

/-- The threshold of line 87 for `maxVal = 3`: the product in double is 1.2000000000000002 and
its conversion to float is 1.2000000476837158. -/
theorem threshold_at_3 :
    fl64 (fl64 0.4 * 3) = 5404319552844596 / 4503599627370496 ∧
    fl32 (fl64 (fl64 0.4 * 3)) = 5033165 / 4194304 := by
  have h64 : fl64 (fl64 0.4 * 3) = 5404319552844596 / 4503599627370496 := by
    rw [fl64_0_4]
    have h := roundTo_eval 53 (-1022) (3602879701896397 / 9007199254740992 * 3) 0
      5404319552844596 (by norm_num) (by norm_num) (by norm_num) (by
        rw [cvRound_eval _ 5404319552844595 (by norm_num) (by norm_num)]
        norm_num)
    unfold fl64
    rw [h]
    norm_num
  refine ⟨h64, ?_⟩
  rw [h64]
  have h := roundTo_eval 24 (-126) (5404319552844596 / 4503599627370496) 0
    10066330 (by norm_num) (by norm_num) (by norm_num) (by
      rw [cvRound_eval _ 10066329 (by norm_num) (by norm_num)]
      norm_num)
  unfold fl32
  rw [h]
  norm_num

/-- The threshold that the code compares the distances with is below the greatest
distance. -/
theorem code_threshold_lt (m : ℚ) (hm : 0 < m) : fl32 (fl64 (fl64 0.4 * m)) < m := by
  rw [fl64_0_4]
  generalize hxdef : (3602879701896397 : ℚ) / 9007199254740992 * m = x
  have hx : 0 < x := by rw [← hxdef]; positivity
  have hxm : x < 401 / 1000 * m := by
    rw [← hxdef]
    have : (3602879701896397 : ℚ) / 9007199254740992 < 401 / 1000 := by norm_num
    exact mul_lt_mul_of_pos_right this hm
  have hy0 : 0 ≤ fl64 x := roundTo_nonneg 53 (-1022) x (le_of_lt hx)
  have hy2 : fl64 x ≤ 2 * x := roundTo_le_two_mul 53 (-1022) x hx
  generalize hydef : fl64 x = y at hy0 hy2 ⊢
  rcases eq_or_lt_of_le hy0 with hy | hy
  · rw [← hy]
    unfold fl32
    rw [roundTo_zero]
    exact hm
  · by_cases hn : (2 : ℚ) ^ (-126 : Int) ≤ y
    · have h := roundTo_le_normal 24 (-126) y hy hn
      have hp : (2 : ℚ) ^ (-((24 : Nat) : Int)) ≤ 1 / 100 := by norm_num
      have h' : roundTo 24 (-126) y ≤ y + y * (1 / 100) :=
        le_trans h (add_le_add_left (mul_le_mul_of_nonneg_left hp hy0) _)
      have hz : fl32 y = roundTo 24 (-126) y := rfl
      rw [hz]
      linarith
    · push_neg at hn
      by_cases hz : fl32 y = 0
      · rw [hz]; exact hm
      · have hlow := le_of_roundTo_ne_zero 24 (-126) y hy hn hz
        have e : ((-126 : Int) - ((24 : Nat) : Int)) = -150 := by norm_num
        rw [e] at hlow
        have hz2 : fl32 y ≤ 2 * y := roundTo_le_two_mul 24 (-126) y hy
        have h3 : (2 : ℚ) ^ (-1022 : Int) ≤ 2 ^ (-150 : Int) / 2 := by
          have : (2 : ℚ) ^ (-150 : Int) / 2 = 2 ^ (-151 : Int) := by
            rw [show (-150 : Int) = -151 + 1 by norm_num,
              zpow_add₀ (by norm_num : (2 : ℚ) ≠ 0), zpow_one]
            ring
          rw [this]
          exact zpow_le_zpow_right₀ (by norm_num) (by norm_num)
        have hxn : (2 : ℚ) ^ (-1022 : Int) ≤ x := by
          generalize (2 : ℚ) ^ (-150 : Int) = a at hlow h3
          generalize (2 : ℚ) ^ (-1022 : Int) = b at h3 ⊢
          linarith
        have h := roundTo_le_normal 53 (-1022) x hx hxn
        have hp : (2 : ℚ) ^ (-((53 : Nat) : Int)) ≤ 1 / 100 := by norm_num
        have h' : roundTo 53 (-1022) x ≤ x + x * (1 / 100) :=
          le_trans h (add_le_add_left (mul_le_mul_of_nonneg_left hp (le_of_lt hx)) _)
        have hy3 : y = roundTo 53 (-1022) x := by rw [← hydef]; rfl
        rw [← hy3] at h'
        linarith

/-! ## The marker map (C2, C4, C10) -/

theorem px_le_of_data (m : Mat Nat) (h : Is8U m) (r c : Nat) : m.px r c ≤ 255 := by
  unfold Mat.px
  split
  · rw [List.getD_eq_getElem?_getD]
    cases hget : m.data[r * m.cols + c]? with
    | none => simp
    | some v =>
      simp only [Option.getD_some]
      exact h v (List.getElem?_mem hget)
  · omega

theorem built_sure_foreground (cv : OpenCV) (o k : Mat Nat) :
    (buildMarkers cv o k).sure_foreground =
      convertTo_8U (threshold_32F (cv.distanceTransform o DIST_L2 5)
        (fl64 (fl64 0.4 * (minMaxLoc (cv.distanceTransform o DIST_L2 5)).maxVal)) 255 0) := rfl

theorem built_maxVal (cv : OpenCV) (o k : Mat Nat) :
    (buildMarkers cv o k).maxVal = (minMaxLoc (cv.distanceTransform o DIST_L2 5)).maxVal := rfl

theorem built_unknown (cv : OpenCV) (o k : Mat Nat) :
    (buildMarkers cv o k).unknown =
      subtract (dilate1 o k (-1, -1)) (buildMarkers cv o k).sure_foreground := rfl

theorem built_markers (cv : OpenCV) (o k : Mat Nat) :
    (buildMarkers cv o k).markers =
      setTo (addScalar (cv.connectedComponents (buildMarkers cv o k).sure_foreground) 1) 0
        (compareEq (buildMarkers cv o k).unknown 255) := rfl

theorem saturate_cast_uchar_255 : saturate_cast_uchar 255 = 255 := by decide

theorem saturate_cast_uchar_0 : saturate_cast_uchar 0 = 0 := by decide

/-- The sure-foreground mask is 255 where the float distance exceeds the float threshold
computed on line 87, else 0. -/
theorem sure_foreground_px (cv : OpenCV) (o k : Mat Nat) (r c : Nat)
    (hr : r < (cv.distanceTransform o DIST_L2 5).rows)
    (hc : c < (cv.distanceTransform o DIST_L2 5).cols) :
    (buildMarkers cv o k).sure_foreground.px r c =
      if fl32 (fl64 (fl64 0.4 * (buildMarkers cv o k).maxVal)) <
        (cv.distanceTransform o DIST_L2 5).px r c then 255
      else 0 := by
  rw [built_sure_foreground, built_maxVal]
  generalize fl64 (fl64 0.4 * (minMaxLoc (cv.distanceTransform o DIST_L2 5)).maxVal) = t
  unfold threshold_32F
  rw [convertTo_8U_px _ r c (by exact hr) (by exact hc),
    threshold_binary_px_inside _ _ _ r c hr hc, fl32_255]
  split
  · have h := cvRound_intCast 255
    norm_num at h
    rw [h, saturate_cast_uchar_255]
  · have h := cvRound_intCast 0
    norm_num at h
    rw [h, saturate_cast_uchar_0]

theorem sure_foreground_two_valued (cv : OpenCV) (o k : Mat Nat) (r c : Nat) :
    (buildMarkers cv o k).sure_foreground.px r c = 0 ∨
      (buildMarkers cv o k).sure_foreground.px r c = 255 := by
  by_cases h : r < (cv.distanceTransform o DIST_L2 5).rows ∧ c < (cv.distanceTransform o DIST_L2 5).cols
  · rw [sure_foreground_px cv o k r c h.1 h.2]
    split
    · right; rfl
    · left; rfl
  · left
    exact px_outside (buildMarkers cv o k).sure_foreground r c h

/-- The marker map handed to `watershed`: 0 where `unknown` is 255, else the component label
plus one. -/
theorem markers_px (cv : OpenCV) (hcc : ConnectedComponentsDoc cv) (o k : Mat Nat) (r c : Nat)
    (hr : r < (buildMarkers cv o k).sure_foreground.rows)
    (hc : c < (buildMarkers cv o k).sure_foreground.cols) :
    (buildMarkers cv o k).markers.px r c =
      if (buildMarkers cv o k).unknown.px r c = 255 then 0
      else (cv.connectedComponents (buildMarkers cv o k).sure_foreground).px r c + 1 := by
  obtain ⟨h1, h2, _⟩ := hcc (buildMarkers cv o k).sure_foreground
  rw [built_markers]
  unfold setTo
  have hr1 : r < (addScalar (cv.connectedComponents (buildMarkers cv o k).sure_foreground) 1).rows := by
    show r < (cv.connectedComponents (buildMarkers cv o k).sure_foreground).rows
    omega
  have hc1 : c < (addScalar (cv.connectedComponents (buildMarkers cv o k).sure_foreground) 1).cols := by
    show c < (cv.connectedComponents (buildMarkers cv o k).sure_foreground).cols
    omega
  rw [px_tabulate _ _ _ r c hr1 hc1]
  have hadd : (addScalar (cv.connectedComponents (buildMarkers cv o k).sure_foreground) 1).px r c =
      (cv.connectedComponents (buildMarkers cv o k).sure_foreground).px r c + 1 := by
    unfold addScalar
    rw [px_tabulate _ _ _ r c (by omega) (by omega)]
  rw [hadd]
  by_cases hu : (buildMarkers cv o k).unknown.px r c = 255
  · have hin : r < (buildMarkers cv o k).unknown.rows ∧ c < (buildMarkers cv o k).unknown.cols := by
      by_contra hout
      rw [px_outside _ r c hout] at hu
      omega
    have hcmp : (compareEq (buildMarkers cv o k).unknown 255).px r c = 255 := by
      unfold compareEq
      rw [px_tabulate _ _ _ r c hin.1 hin.2, if_pos hu]
    rw [hcmp, if_pos hu, if_pos (by decide)]
  · have hcmp : (compareEq (buildMarkers cv o k).unknown 255).px r c = 0 := by
      by_cases hin : r < (buildMarkers cv o k).unknown.rows ∧ c < (buildMarkers cv o k).unknown.cols
      · unfold compareEq
        rw [px_tabulate _ _ _ r c hin.1 hin.2, if_neg hu]
      · exact px_outside (compareEq (buildMarkers cv o k).unknown 255) r c hin
    rw [hcmp, if_neg hu, if_neg (by decide)]

theorem markers_rows (cv : OpenCV) (hcc : ConnectedComponentsDoc cv) (o k : Mat Nat) :
    (buildMarkers cv o k).markers.rows = (buildMarkers cv o k).sure_foreground.rows ∧
    (buildMarkers cv o k).markers.cols = (buildMarkers cv o k).sure_foreground.cols := by
  obtain ⟨h1, h2, _⟩ := hcc (buildMarkers cv o k).sure_foreground
  exact ⟨h1, h2⟩

theorem markers_nonneg (cv : OpenCV) (hcc : ConnectedComponentsDoc cv) (o k : Mat Nat)
    (r c : Nat) : 0 ≤ (buildMarkers cv o k).markers.px r c := by
  by_cases h : r < (buildMarkers cv o k).sure_foreground.rows ∧
      c < (buildMarkers cv o k).sure_foreground.cols
  · rw [markers_px cv hcc o k r c h.1 h.2]
    obtain ⟨_, _, h3⟩ := hcc (buildMarkers cv o k).sure_foreground
    have h4 := h3 r c h.1 h.2
    split
    · exact le_refl _
    · by_cases hz : (buildMarkers cv o k).sure_foreground.px r c = 0
      · rw [h4.1 hz]; decide
      · have := h4.2 hz
        omega
  · have hm := markers_rows cv hcc o k
    rw [← hm.1, ← hm.2] at h
    rw [px_outside (buildMarkers cv o k).markers r c h]

/-- C2: in the marker map that `watershedSegmentation` hands to `watershed` (connected
components of the sure foreground, plus one, reset to 0 where `unknown == 255`), built from
any opened mask, every pixel is exactly one of background (label 1), unknown (label 0) and
foreground region (label at least 2), and no label is negative. -/
theorem markers_partition (cv : OpenCV) (hcc : ConnectedComponentsDoc cv) (opening : Mat Nat)
    (r c : Nat) :
    0 ≤ (buildMarkers cv opening kernel3).markers.px r c ∧
    ((buildMarkers cv opening kernel3).markers.px r c = 1 ∨
      (buildMarkers cv opening kernel3).markers.px r c = 0 ∨
      2 ≤ (buildMarkers cv opening kernel3).markers.px r c) ∧
    ¬ ((buildMarkers cv opening kernel3).markers.px r c = 1 ∧
      (buildMarkers cv opening kernel3).markers.px r c = 0) ∧
    ¬ ((buildMarkers cv opening kernel3).markers.px r c = 1 ∧
      2 ≤ (buildMarkers cv opening kernel3).markers.px r c) ∧
    ¬ ((buildMarkers cv opening kernel3).markers.px r c = 0 ∧
      2 ≤ (buildMarkers cv opening kernel3).markers.px r c) := by
  have h := markers_nonneg cv hcc opening kernel3 r c
  refine ⟨h, ?_, ?_, ?_, ?_⟩ <;> omega

theorem foldl_min_le_of_mem {β : Type} (f : β → Nat) (l : List β) (a : Nat) (q : β)
    (hq : q ∈ l) : l.foldl (fun acc q => min acc (f q)) a ≤ f q :=
  ((foldl_min_le_iff f l a _).mp (le_refl _)).2 q hq

/-- The stand-in instance has the documented properties of `distanceTransform`. -/
theorem cvSimple_distanceTransformDoc : DistanceTransformDoc cvSimple := by
  intro src distanceType maskSize
  refine ⟨rfl, rfl, ?_⟩
  intro r c hr hc
  have hpx : (cvSimple.distanceTransform src distanceType maskSize).px r c =
      (cityBlock src r c : ℚ) :=
    px_tabulate _ _ _ r c hr hc
  rw [hpx]
  constructor
  · intro hz
    have hmem : (r, c) ∈ src.positions.filter (fun q => src.px q.1 q.2 = 0) := by
      rw [List.mem_filter]
      exact ⟨(mem_positions src (r, c)).mpr ⟨hr, hc⟩, by simpa using hz⟩
    have hle := foldl_min_le_of_mem
      (fun q : Nat × Nat => (r - q.1) + (q.1 - r) + ((c - q.2) + (q.2 - c)))
      _ (src.rows + src.cols) (r, c) hmem
    have h0 : cityBlock src r c = 0 := by
      unfold cityBlock
      simp only at hle
      omega
    rw [h0]
    simp
  · intro hnz
    have h1 : 1 ≤ cityBlock src r c := by
      unfold cityBlock
      rw [foldl_min_le_iff (fun q : Nat × Nat => (r - q.1) + (q.1 - r) + ((c - q.2) + (q.2 - c)))]
      refine ⟨by omega, ?_⟩
      intro q hq
      rw [List.mem_filter] at hq
      have hq0 : src.px q.1 q.2 = 0 := by simpa using hq.2
      by_contra hlt
      have e1 : q.1 = r := by omega
      have e2 : q.2 = c := by omega
      rw [e1, e2] at hq0
      exact hnz hq0
    have : (0 : ℚ) < (cityBlock src r c : ℚ) := by
      exact_mod_cast h1
    exact this

/-- The stand-in instance has the documented properties of `connectedComponents`. -/
theorem cvSimple_connectedComponentsDoc : ConnectedComponentsDoc cvSimple := by
  intro src
  refine ⟨rfl, rfl, ?_⟩
  intro r c hr hc
  have hpx : (cvSimple.connectedComponents src).px r c = if src.px r c = 0 then 0 else 1 :=
    px_tabulate _ _ _ r c hr hc
  rw [hpx]
  constructor
  · intro hz; rw [if_pos hz]
  · intro hnz; rw [if_neg hnz]

/-- C2 at a concrete input: the stand-in instance and the 5 x 5 mask with a 3 x 3 block, at
the centre pixel. -/
theorem markers_partition_witness :
    0 ≤ (buildMarkers cvSimple blockMask kernel3).markers.px 2 2 ∧
    ((buildMarkers cvSimple blockMask kernel3).markers.px 2 2 = 1 ∨
      (buildMarkers cvSimple blockMask kernel3).markers.px 2 2 = 0 ∨
      2 ≤ (buildMarkers cvSimple blockMask kernel3).markers.px 2 2) ∧
    ¬ ((buildMarkers cvSimple blockMask kernel3).markers.px 2 2 = 1 ∧
      (buildMarkers cvSimple blockMask kernel3).markers.px 2 2 = 0) ∧
    ¬ ((buildMarkers cvSimple blockMask kernel3).markers.px 2 2 = 1 ∧
      2 ≤ (buildMarkers cvSimple blockMask kernel3).markers.px 2 2) ∧
    ¬ ((buildMarkers cvSimple blockMask kernel3).markers.px 2 2 = 0 ∧
      2 ≤ (buildMarkers cvSimple blockMask kernel3).markers.px 2 2) :=
  markers_partition cvSimple cvSimple_connectedComponentsDoc blockMask 2 2

/-- The marker-building steps inside `watershedSegmentation`: they are applied to the opened
threshold mask with the 3 x 3 kernel, and their marker map is what `watershed` receives. -/
theorem watershedLocals_built (cv : OpenCV) (image : Mat Vec3b) :
    (watershedLocals cv image).built =
      buildMarkers cv (watershedLocals cv image).opening kernel3 ∧
    (watershedLocals cv image).opening =
      opening (watershedThreshold (cv.cvtColor_BGR2GRAY (cv.medianBlur image 13))) kernel3 ∧
    (watershedLocals cv image).markers =
      cv.watershed image.clone (watershedLocals cv image).built.markers :=
  ⟨rfl, rfl, rfl⟩

theorem dist_dims (cv : OpenCV) (hdt : DistanceTransformDoc cv) (o : Mat Nat) :
    (cv.distanceTransform o DIST_L2 5).rows = o.rows ∧ (cv.distanceTransform o DIST_L2 5).cols = o.cols :=
  ⟨(hdt o DIST_L2 5).1, (hdt o DIST_L2 5).2.1⟩

theorem sure_foreground_dims (cv : OpenCV) (hdt : DistanceTransformDoc cv) (o k : Mat Nat) :
    (buildMarkers cv o k).sure_foreground.rows = o.rows ∧
    (buildMarkers cv o k).sure_foreground.cols = o.cols := by
  have h := dist_dims cv hdt o
  exact ⟨h.1, h.2⟩

theorem unknown_px (cv : OpenCV) (o : Mat Nat) (r c : Nat) (hr : r < o.rows) (hc : c < o.cols) :
    (buildMarkers cv o kernel3).unknown.px r c =
      saturate_cast_uchar (((dilate1 o kernel3 (-1, -1)).px r c : Int) -
        ((buildMarkers cv o kernel3).sure_foreground.px r c : Int)) := by
  rw [built_unknown, subtract_px _ _ r c (by exact hr) (by exact hc)]

theorem blank_mask_facts (cv : OpenCV) (hdt : DistanceTransformDoc cv)
    (hcc : ConnectedComponentsDoc cv) (opening : Mat Nat)
    (hz : ∀ r c, opening.px r c = 0) :
    (buildMarkers cv opening kernel3).maxVal = 0 ∧
    (∀ r c, (buildMarkers cv opening kernel3).sure_foreground.px r c = 0) ∧
    (∀ r c, (buildMarkers cv opening kernel3).unknown.px r c = 0) ∧
    (buildMarkers cv opening kernel3).markers.rows = opening.rows ∧
    (buildMarkers cv opening kernel3).markers.cols = opening.cols ∧
    (∀ r c, r < opening.rows → c < opening.cols →
      (buildMarkers cv opening kernel3).markers.px r c = 1) := by
  have hd := dist_dims cv hdt opening
  have hs := sure_foreground_dims cv hdt opening kernel3
  have hm := markers_rows cv hcc opening kernel3
  have dist0 : ∀ r c, (cv.distanceTransform opening DIST_L2 5).px r c = 0 := by
    intro r c
    by_cases h : r < (cv.distanceTransform opening DIST_L2 5).rows ∧ c < (cv.distanceTransform opening DIST_L2 5).cols
    · exact ((hdt opening DIST_L2 5).2.2 r c (by omega) (by omega)).1 (hz r c)
    · exact px_outside _ r c h
  have hmax : (buildMarkers cv opening kernel3).maxVal = 0 := by
    show (minMaxLoc (cv.distanceTransform opening DIST_L2 5)).maxVal = 0
    rw [minMaxLoc_maxVal_eq, dist0]
  have sfg0 : ∀ r c, (buildMarkers cv opening kernel3).sure_foreground.px r c = 0 := by
    intro r c
    by_cases h : r < (cv.distanceTransform opening DIST_L2 5).rows ∧ c < (cv.distanceTransform opening DIST_L2 5).cols
    · have ht : fl32 (fl64 (fl64 0.4 * 0)) = 0 := by
        rw [mul_zero]
        unfold fl64 fl32
        rw [roundTo_zero, roundTo_zero]
      rw [sure_foreground_px cv opening kernel3 r c h.1 h.2, hmax, dist0, ht]
      norm_num
    · exact px_outside (buildMarkers cv opening kernel3).sure_foreground r c h
  have unk0 : ∀ r c, (buildMarkers cv opening kernel3).unknown.px r c = 0 := by
    intro r c
    by_cases h : r < opening.rows ∧ c < opening.cols
    · have hbg : (dilate1 opening kernel3 (-1, -1)).px r c = 0 := by
        have := (dilate1_le_iff opening r c 0 h.1 h.2).mpr (fun q _ => by rw [hz])
        omega
      rw [unknown_px cv opening r c h.1 h.2, hbg, sfg0]
      decide
    · exact px_outside (buildMarkers cv opening kernel3).unknown r c h
  refine ⟨hmax, sfg0, unk0, by omega, by omega, ?_⟩
  intro r c hr hc
  rw [markers_px cv hcc opening kernel3 r c (by omega) (by omega), unk0, if_neg (by decide)]
  have := ((hcc (buildMarkers cv opening kernel3).sure_foreground).2.2 r c (by omega)
    (by omega)).1 (sfg0 r c)
  rw [this]
  rfl

/-- C4: when the opened mask is 0 at every pixel, the marker-building steps of
`watershedSegmentation` give `maxVal = 0`, an empty sure-foreground mask, an empty unknown
mask, and a marker map of the size of the mask that is 1 (background) at every pixel. -/
theorem blank_mask_all_background (cv : OpenCV) (hdt : DistanceTransformDoc cv)
    (hcc : ConnectedComponentsDoc cv) (opening : Mat Nat)
    (hz : ∀ r c, opening.px r c = 0) :
    (buildMarkers cv opening kernel3).maxVal = 0 ∧
    (∀ r c, (buildMarkers cv opening kernel3).sure_foreground.px r c = 0) ∧
    (∀ r c, (buildMarkers cv opening kernel3).unknown.px r c = 0) ∧
    (buildMarkers cv opening kernel3).markers.rows = opening.rows ∧
    (buildMarkers cv opening kernel3).markers.cols = opening.cols ∧
    (∀ r c, r < opening.rows → c < opening.cols →
      (buildMarkers cv opening kernel3).markers.px r c = 1) :=
  blank_mask_facts cv hdt hcc opening hz

theorem zeroMask_px (r c : Nat) : zeroMask.px r c = 0 := by
  by_cases h : r < zeroMask.rows ∧ c < zeroMask.cols
  · exact px_tabulate 3 3 _ r c h.1 h.2
  · exact px_outside zeroMask r c h

/-- C4 at a concrete input: the stand-in instance and the 3 x 3 mask that is 0 everywhere. -/
theorem blank_mask_all_background_witness :
    (buildMarkers cvSimple zeroMask kernel3).maxVal = 0 ∧
    (∀ r c, (buildMarkers cvSimple zeroMask kernel3).sure_foreground.px r c = 0) ∧
    (∀ r c, (buildMarkers cvSimple zeroMask kernel3).unknown.px r c = 0) ∧
    (buildMarkers cvSimple zeroMask kernel3).markers.rows = zeroMask.rows ∧
    (buildMarkers cvSimple zeroMask kernel3).markers.cols = zeroMask.cols ∧
    (∀ r c, r < zeroMask.rows → c < zeroMask.cols →
      (buildMarkers cvSimple zeroMask kernel3).markers.px r c = 1) :=
  blank_mask_all_background cvSimple cvSimple_distanceTransformDoc
    cvSimple_connectedComponentsDoc zeroMask zeroMask_px

theorem dilate1_px_le_255 (o : Mat Nat) (h8 : Is8U o) (r c : Nat) :
    (dilate1 o kernel3 (-1, -1)).px r c ≤ 255 :=
  dilate1_le_255 o (px_le_of_data o h8) r c

/-- No sure-foreground pixel is in the unknown mask. -/
theorem unknown_zero_of_sure_foreground (cv : OpenCV) (o : Mat Nat) (h8 : Is8U o) (r c : Nat)
    (hf : (buildMarkers cv o kernel3).sure_foreground.px r c = 255) :
    (buildMarkers cv o kernel3).unknown.px r c = 0 := by
  by_cases h : r < o.rows ∧ c < o.cols
  · rw [unknown_px cv o r c h.1 h.2, hf]
    have hb := dilate1_px_le_255 o h8 r c
    unfold saturate_cast_uchar
    split
    · rfl
    · split
      · omega
      · omega
  · exact px_outside (buildMarkers cv o kernel3).unknown r c h

theorem foldl_filter_cond {α β : Type} (p : α → Bool) (f : β → α → β) (l : List α) (b : β) :
    l.foldl (fun acc x => if p x = true then f acc x else acc) b = (l.filter p).foldl f b := by
  induction l generalizing b with
  | nil => rfl
  | cons x t ih =>
    by_cases hp : p x = true
    · rw [List.filter_cons_of_pos hp]
      simp only [List.foldl_cons, hp, if_true]
      exact ih _
    · rw [List.filter_cons_of_neg hp]
      simp only [List.foldl_cons, hp]
      exact ih _

/-- The drawing loop draws exactly the contours of `externalIndices`, in that order. -/
theorem drawLoop_eq (cv : OpenCV) (result : Mat Vec3b) (contours : List Contour)
    (hierarchy : List Vec4i) (color : Scalar) (thickness : Int) :
    drawLoop cv result contours hierarchy color thickness =
      (externalIndices contours hierarchy).foldl
        (fun (res : Mat Vec3b) (i : Nat) => cv.drawContours res contours (i : Int) color thickness)
        result := by
  unfold drawLoop externalIndices
  rw [← foldl_filter_cond (fun i => decide ((hierarchy.getD i 0).idx 3 = -1))
    (fun (res : Mat Vec3b) (i : Nat) => cv.drawContours res contours (i : Int) color thickness)]
  apply List.foldl_ext
  intro acc i _
  simp only [decide_eq_true_eq]

theorem mem_externalIndices (contours : List Contour) (hierarchy : List Vec4i) (i : Nat) :
    i ∈ externalIndices contours hierarchy ↔
      i < contours.length ∧ (hierarchy.getD i 0).idx 3 = -1 := by
  unfold externalIndices
  simp [List.mem_filter]

theorem externalIndices_increasing (contours : List Contour) (hierarchy : List Vec4i) :
    (externalIndices contours hierarchy).Pairwise (fun i j => i < j) := by
  unfold externalIndices
  exact List.Pairwise.filter _ (List.pairwise_lt_range _)

/-- C6: each pipeline returns the clone of the original on which exactly the contours `i`
with `hierarchy[i][3] == -1` have been drawn, in increasing order of `i`, where `contours`
and `hierarchy` are what `findContours` returned: `simpleContourDetection` with colour
(0, 255, 0) and thickness 10, `watershedSegmentation` with colour (255, 0, 0) and thickness 2.
With an empty contour list the returned image is the clone of the original. -/
theorem external_contours_drawn (cv : OpenCV) (image : Mat Vec3b) :
    ((simpleContourDetection cv image).1 =
      (externalIndices (simpleLocals cv image).contours (simpleLocals cv image).hierarchy).foldl
        (fun (res : Mat Vec3b) (i : Nat) =>
          cv.drawContours res (simpleLocals cv image).contours (i : Int) (0, 255, 0, 0) 10)
        image.clone) ∧
    ((watershedSegmentation cv image).1 =
      (externalIndices (watershedLocals cv image).contours
          (watershedLocals cv image).hierarchy).foldl
        (fun (res : Mat Vec3b) (i : Nat) =>
          cv.drawContours res (watershedLocals cv image).contours (i : Int) (255, 0, 0, 0) 2)
        image.clone) ∧
    ((simpleLocals cv image).contours, (simpleLocals cv image).hierarchy) =
      cv.findContours (simpleLocals cv image).contourInput RETR_CCOMP CHAIN_APPROX_SIMPLE ∧
    ((watershedLocals cv image).contours, (watershedLocals cv image).hierarchy) =
      cv.findContours (watershedLocals cv image).contourInput RETR_CCOMP CHAIN_APPROX_SIMPLE ∧
    (∀ (contours : List Contour) (hierarchy : List Vec4i),
      (∀ i, i ∈ externalIndices contours hierarchy ↔
        i < contours.length ∧ (hierarchy.getD i 0).idx 3 = -1) ∧
      (externalIndices contours hierarchy).Pairwise (fun i j => i < j)) ∧
    ((simpleLocals cv image).contours = [] → (simpleContourDetection cv image).1 = image.clone) ∧
    ((watershedLocals cv image).contours = [] →
      (watershedSegmentation cv image).1 = image.clone) := by
  have hs : (simpleContourDetection cv image).1 =
      drawLoop cv image.clone (simpleLocals cv image).contours (simpleLocals cv image).hierarchy
        (Scalar.bgr 0 255 0) 10 := rfl
  have hw : (watershedSegmentation cv image).1 =
      drawLoop cv image.clone (watershedLocals cv image).contours
        (watershedLocals cv image).hierarchy (Scalar.bgr 255 0 0) 2 := rfl
  refine ⟨?_, ?_, rfl, rfl, ?_, ?_, ?_⟩
  · rw [hs, drawLoop_eq]; rfl
  · rw [hw, drawLoop_eq]; rfl
  · exact fun contours hierarchy =>
      ⟨mem_externalIndices contours hierarchy, externalIndices_increasing contours hierarchy⟩
  · intro h
    rw [hs, h]
    rfl
  · intro h
    rw [hw, h]
    rfl

/-! ## The exit status of `main` (C3) -/

/-- C3: `main` returns a non-zero status exactly when the loaded image is empty; then it
returns -1 after printing one message, displays nothing and runs neither pipeline; when the
image is not empty it returns 0 and its events are the display of the original, the events of
`simpleContourDetection`, the events of `watershedSegmentation`, the display of the three
images side by side, and `destroyAllWindows`. -/
theorem main_exit_status (cv : OpenCV) :
    ((main cv).1 ≠ 0 ↔ (cv.imread "coins.jpg").empty = true) ∧
    ((cv.imread "coins.jpg").empty = true →
      (main cv).1 = -1 ∧
      (main cv).2 = [Event.cout "Could not load image: coins.jpg\n"] ∧
      ∀ e ∈ (main cv).2, e.isImshow = false) ∧
    ((cv.imread "coins.jpg").empty = false →
      (main cv).1 = 0 ∧
      (main cv).2 =
        showImage cv "0. Original Image" (AnyMat.u8c3 (cv.imread "coins.jpg")) 800 500 ++
        (simpleContourDetection cv (cv.imread "coins.jpg")).2 ++
        (watershedSegmentation cv (cv.imread "coins.jpg")).2 ++
        showImage cv "Final Comparison: Original | Contour | Watershed"
          (AnyMat.u8c3 (cv.hconcat [cv.imread "coins.jpg",
            (simpleContourDetection cv (cv.imread "coins.jpg")).1,
            (watershedSegmentation cv (cv.imread "coins.jpg")).1])) 1400 700 ++
        [Event.destroyAllWindows]) := by
  have hmain : main cv =
      if (cv.imread "coins.jpg").empty = true then
        (-1, [Event.cout ("Could not load image: " ++ "coins.jpg" ++ "\n")])
      else
        (0,
          showImage cv "0. Original Image" (AnyMat.u8c3 (cv.imread "coins.jpg")) 800 500 ++
          (simpleContourDetection cv (cv.imread "coins.jpg")).2 ++
          (watershedSegmentation cv (cv.imread "coins.jpg")).2 ++
          showImage cv "Final Comparison: Original | Contour | Watershed"
            (AnyMat.u8c3 (cv.hconcat [cv.imread "coins.jpg",
              (simpleContourDetection cv (cv.imread "coins.jpg")).1,
              (watershedSegmentation cv (cv.imread "coins.jpg")).1])) 1400 700 ++
          [Event.destroyAllWindows]) := rfl
  have hmsg : "Could not load image: " ++ "coins.jpg" ++ "\n" =
      "Could not load image: coins.jpg\n" := by decide
  cases hE : (cv.imread "coins.jpg").empty with
  | true =>
    rw [hmain, hE, if_pos rfl, hmsg]
    refine ⟨?_, ?_, ?_⟩
    · simp
    · intro _
      refine ⟨rfl, rfl, ?_⟩
      intro e he
      rw [List.mem_singleton] at he
      rw [he]
      rfl
    · intro h
      exact absurd h (by decide)
  | false =>
    rw [hmain, hE, if_neg (by decide)]
    refine ⟨?_, ?_, ?_⟩
    · simp
    · intro h
      exact absurd h (by decide)
    · intro _
      exact ⟨rfl, rfl⟩

/-! ## What `findContours` is applied to (C9) -/

theorem boundaryMask_px_of_ne (markers : Mat Int) (r c : Nat) (h : markers.px r c ≠ -1) :
    (boundaryMask markers).px r c = 0 := by
  by_cases hin : r < markers.rows ∧ c < markers.cols
  · unfold boundaryMask
    rw [px_tabulate _ _ _ r c hin.1 hin.2, if_neg h]
  · exact px_outside (boundaryMask markers) r c hin

/-- C9, as the code has it: in `watershedSegmentation` the contour extractor is applied to a
clone of the grown label map itself, the 32-bit label matrix that the call of `watershed`
returned, with every label unchanged, and never to an 8-bit mask; no boundary mask is
formed, so at a pixel whose label is neither -1 nor 0 the input of the extractor holds that
non-zero label where the boundary mask holds 0.  In `simpleContourDetection` the extractor
is applied in the same way to a clone of the 8-bit threshold mask. -/
theorem contours_of_label_map (cv : OpenCV) (image : Mat Vec3b) :
    (watershedLocals cv image).contourInput = AnyMat.s32c1 (watershedLocals cv image).markers ∧
    (watershedLocals cv image).markers =
      cv.watershed image (watershedLocals cv image).built.markers ∧
    ((watershedLocals cv image).contours, (watershedLocals cv image).hierarchy) =
      cv.findContours (AnyMat.s32c1 (watershedLocals cv image).markers) RETR_CCOMP
        CHAIN_APPROX_SIMPLE ∧
    (simpleLocals cv image).contourInput = AnyMat.u8c1 (simpleLocals cv image).thresh ∧
    ((simpleLocals cv image).contours, (simpleLocals cv image).hierarchy) =
      cv.findContours (AnyMat.u8c1 (simpleLocals cv image).thresh) RETR_CCOMP
        CHAIN_APPROX_SIMPLE ∧
    (∀ mask : Mat Nat, (watershedLocals cv image).contourInput ≠ AnyMat.u8c1 mask) ∧
    (∀ r c, (watershedLocals cv image).markers.px r c ≠ -1 →
      (watershedLocals cv image).markers.px r c ≠ 0 →
      (boundaryMask (watershedLocals cv image).markers).px r c = 0 ∧
      ∃ labels : Mat Int, (watershedLocals cv image).contourInput = AnyMat.s32c1 labels ∧
        labels.px r c = (watershedLocals cv image).markers.px r c ∧ labels.px r c ≠ 0) :=
  ⟨rfl, rfl, rfl, rfl, rfl, fun _ h => AnyMat.noConfusion h,
    fun r c h1 h0 => ⟨boundaryMask_px_of_ne _ r c h1, _, rfl, rfl, h0⟩⟩

theorem tabulate_px_self {α : Type} [Zero α] (rows cols : Nat) (f : Nat → Nat → α) :
    Mat.tabulate rows cols f =
      Mat.tabulate rows cols (fun r c => (Mat.tabulate rows cols f).px r c) := by
  apply tabulate_congr
  intro r c hr hc
  rw [px_tabulate _ _ _ r c hr hc]

/-- The marker map that the stand-in instance builds for the black 3 x 3 image is 1 at
every pixel. -/
theorem blackImage_seeds :
    (watershedLocals cvSimple blackImage).built.markers = ⟨3, 3, [1, 1, 1, 1, 1, 1, 1, 1, 1]⟩ := by
  have hopen : (watershedLocals cvSimple blackImage).opening = zeroMask := by decide
  have hb : (watershedLocals cvSimple blackImage).built =
      buildMarkers cvSimple (watershedLocals cvSimple blackImage).opening kernel3 := rfl
  rw [hb, hopen]
  obtain ⟨_, _, _, hr, hc, hpx⟩ := blank_mask_facts cvSimple cvSimple_distanceTransformDoc
    cvSimple_connectedComponentsDoc zeroMask zeroMask_px
  have hself : (buildMarkers cvSimple zeroMask kernel3).markers =
      Mat.tabulate (buildMarkers cvSimple zeroMask kernel3).markers.rows
        (buildMarkers cvSimple zeroMask kernel3).markers.cols
        (fun r c => (buildMarkers cvSimple zeroMask kernel3).markers.px r c) := by
    conv_lhs => rw [built_markers]
    unfold setTo
    exact tabulate_px_self _ _ _
  rw [hself, hr, hc]
  have h1 : Mat.tabulate zeroMask.rows zeroMask.cols
      (fun r c => (buildMarkers cvSimple zeroMask kernel3).markers.px r c) =
      Mat.tabulate zeroMask.rows zeroMask.cols (fun _ _ => (1 : Int)) :=
    tabulate_congr _ _ _ _ (fun r c hr hc => hpx r c hr hc)
  rw [h1]
  decide

/-- C9 as stated fails: for the black 3 x 3 image (with the stand-in instance) the marker map
is 1 everywhere, the grown label map is -1 on the frame and 1 (the background region) at the
centre, and `findContours` receives this label map; the boundary mask of that map is a
different matrix, which is 0 at the centre, where the matrix handed to `findContours` holds
the non-zero label 1. -/
theorem contour_input_is_not_boundary_mask :
    (watershedLocals cvSimple blackImage).markers = ⟨3, 3, [-1, -1, -1, -1, 1, -1, -1, -1, -1]⟩ ∧
    (watershedLocals cvSimple blackImage).contourInput =
      AnyMat.s32c1 ⟨3, 3, [-1, -1, -1, -1, 1, -1, -1, -1, -1]⟩ ∧
    boundaryMask (watershedLocals cvSimple blackImage).markers =
      ⟨3, 3, [255, 255, 255, 255, 0, 255, 255, 255, 255]⟩ ∧
    (watershedLocals cvSimple blackImage).contourInput ≠
      AnyMat.u8c1 (boundaryMask (watershedLocals cvSimple blackImage).markers) ∧
    ¬ ((watershedLocals cvSimple blackImage).markers.px 1 1 ≠ 0 ↔
      (watershedLocals cvSimple blackImage).markers.px 1 1 = -1) := by
  have hm : (watershedLocals cvSimple blackImage).markers =
      cvSimple.watershed blackImage (watershedLocals cvSimple blackImage).built.markers := rfl
  have hg : (watershedLocals cvSimple blackImage).markers =
      ⟨3, 3, [-1, -1, -1, -1, 1, -1, -1, -1, -1]⟩ := by
    rw [hm, blackImage_seeds]
    decide
  have hi : (watershedLocals cvSimple blackImage).contourInput =
      AnyMat.s32c1 (watershedLocals cvSimple blackImage).markers := rfl
  rw [hi, hg]
  decide

/-! ## The original wording of C10 and the rounded threshold -/

theorem cvSamples_connectedComponentsDoc : ConnectedComponentsDoc cvSamples :=
  cvSimple_connectedComponentsDoc

/-- The instance `cvSamples` has the documented properties of `distanceTransform`. -/
theorem cvSamples_distanceTransformDoc : DistanceTransformDoc cvSamples := by
  intro src distanceType maskSize
  refine ⟨rfl, rfl, ?_⟩
  intro r c hr hc
  have hpx : (cvSamples.distanceTransform src distanceType maskSize).px r c =
      if src.px r c = 0 then 0 else if c = 0 then 3 else 5033165 / 4194304 :=
    px_tabulate _ _ _ r c hr hc
  rw [hpx]
  constructor
  · intro hz
    rw [if_pos hz]
  · intro hnz
    rw [if_neg hnz]
    split <;> norm_num

theorem cvSamples_dist_0 :
    (cvSamples.distanceTransform twoPixelMask DIST_L2 5).px 0 0 = 3 := by
  have h : (cvSamples.distanceTransform twoPixelMask DIST_L2 5).px 0 0 =
      if twoPixelMask.px 0 0 = 0 then 0 else if (0 : Nat) = 0 then 3 else 5033165 / 4194304 :=
    px_tabulate 1 2 _ 0 0 (by decide) (by decide)
  rw [h, if_neg (by decide), if_pos rfl]

theorem cvSamples_dist_1 :
    (cvSamples.distanceTransform twoPixelMask DIST_L2 5).px 0 1 = 5033165 / 4194304 := by
  have h : (cvSamples.distanceTransform twoPixelMask DIST_L2 5).px 0 1 =
      if twoPixelMask.px 0 1 = 0 then 0 else if (1 : Nat) = 0 then 3 else 5033165 / 4194304 :=
    px_tabulate 1 2 _ 0 1 (by decide) (by decide)
  rw [h, if_neg (by decide), if_neg (by decide)]

theorem cvSamples_maxVal : (buildMarkers cvSamples twoPixelMask kernel3).maxVal = 3 := by
  have hpos : (cvSamples.distanceTransform twoPixelMask DIST_L2 5).positions =
      [(0, 0), (0, 1)] := by decide
  rw [built_maxVal]
  unfold minMaxLoc
  rw [hpos]
  simp only [List.foldl_cons, List.foldl_nil, minMaxStep, cvSamples_dist_0, cvSamples_dist_1]
  norm_num

end Watershed
